import Mathlib

/-!
Verification development for the voble Anchor program
(src/anchor/programs/voble/src). The Rust instruction handlers and pure
helpers are shallowly embedded as executable Lean definitions: u64/u32
arithmetic is modelled on Nat with explicit reduction modulo 2 ^ 64 or
2 ^ 32 where the Rust release-mode wrapping semantics matters, fallible
handlers return Except VobleError, and an out-of-bounds index panic is
modelled by an Option-valued wrapper returning none.
-/

namespace Voble

/-! ### Machine-integer widths -/

def U64 : Nat := 2 ^ 64

def U32 : Nat := 2 ^ 32

/-- Rust u32::saturating_add on values below 2 ^ 32. -/
def satAdd (a b : Nat) : Nat := min (a + b) (U32 - 1)

/-- Rust i64-to-u64 `as` cast (two-s complement reinterpretation). -/
def castU64 (x : Int) : Nat := (x % (U64 : Int)).toNat

/-! ### Constants (src/constants.rs) -/

def WORD_LENGTH : Nat := 6

def MAX_GUESSES : Nat := 7

def MAX_LEADERBOARD_SIZE : Nat := 10

def BASIS_POINTS_TOTAL : Nat := 10000

def SCORE_GUESS_1 : Nat := 1000
def SCORE_GUESS_2 : Nat := 800
def SCORE_GUESS_3 : Nat := 600
def SCORE_GUESS_4 : Nat := 400
def SCORE_GUESS_5 : Nat := 300
def SCORE_GUESS_6 : Nat := 200
def SCORE_GUESS_7 : Nat := 100

def TIME_BONUS_TIER_1 : Nat := 30000
def TIME_BONUS_TIER_2 : Nat := 60000
def TIME_BONUS_TIER_3 : Nat := 120000
def TIME_BONUS_TIER_4 : Nat := 300000

def BONUS_TIER_1 : Nat := 500
def BONUS_TIER_2 : Nat := 300
def BONUS_TIER_3 : Nat := 150
def BONUS_TIER_4 : Nat := 50

/-- Demo word list (src/constants.rs, VOBLE_WORDS), as character lists. -/
def VOBLE_WORDS : List (List Char) :=
  [['A','N','C','H','O','R'], ['B','R','I','D','G','E'], ['C','A','S','T','L','E'],
   ['D','R','A','G','O','N'], ['E','N','E','R','G','Y'], ['F','O','R','E','S','T'],
   ['G','A','R','D','E','N'], ['H','A','M','M','E','R'], ['I','S','L','A','N','D'],
   ['J','U','N','G','L','E'], ['K','E','R','N','E','L'], ['L','A','D','D','E','R'],
   ['M','A','R','K','E','T'], ['N','A','T','U','R','E'], ['O','R','A','N','G','E'],
   ['P','U','Z','Z','L','E'], ['Q','U','A','R','T','Z'], ['R','O','C','K','E','T'],
   ['S','O','L','A','N','A'], ['T','E','M','P','L','E']]

/-! ### Error codes (src/errors.rs) -/

inductive VobleError where
  | GamePaused
  | InvalidCorrectCount
  | InvalidGuessesUsed
  | AlreadyClaimed
  | PeriodAlreadyFinalized
  | InsufficientVaultBalance
  | NoParticipants
  | InvalidWinnerSplits
  | InvalidPrizeSplits
  | SessionIdTooLong
  | PeriodIdTooLong
  | PeriodTypeTooLong
  | Unauthorized
  | PeriodNotFound
  | InvalidPeriodState
  | DailyLimitExceeded
  | SessionIdEmpty
  | InvalidScore
  | InvalidGuessCount
  | InvalidWinnerCount
  | InvalidWinnerOrder
  | InvalidPrizeAmount
  | InvalidTimeMs
  | WordNotSet
  | InvalidUsername
  | InvalidGuessLength
  | InvalidGuess
  | AlreadyPlayedThisPeriod
  | TooManyKeystrokes
  | InvalidInput
deriving DecidableEq

instance {ε α : Type} [DecidableEq ε] [DecidableEq α] : DecidableEq (Except ε α) :=
  fun x y =>
    match x, y with
    | Except.ok a, Except.ok b => decidable_of_iff (a = b) (by simp)
    | Except.error a, Except.error b => decidable_of_iff (a = b) (by simp)
    | Except.ok _, Except.error _ => isFalse (by simp)
    | Except.error _, Except.ok _ => isFalse (by simp)

/-! ### Word evaluator (src/instructions/game/scoring.rs, evaluate_guess)

The Rust function loops `for i in 0..WORD_LENGTH` over `guess_chars` and
`target_chars`, which panics if either vector has fewer than WORD_LENGTH
characters.  The loops only read and write position i at iteration i, so
they are rendered as structural recursion over the first WORD_LENGTH
positions of the two lists; the whole target vector is threaded through
because the second pass searches all of it. -/

inductive LetterResult where
  | Correct
  | Present
  | Absent
deriving DecidableEq

/-- The tombstone character the Rust code writes into consumed target slots. -/
def nullChar : Char := '\x00'

/-- First pass: mark exact positional matches Correct and tombstone the
matched target slot.  Mirrors the first `for` loop of evaluate_guess; the
fuel argument is WORD_LENGTH. -/
def pass1 : Nat → List Char → List Char → List LetterResult × List Char
  | 0, _, t => ([], t)
  | _ + 1, [], t => ([], t)
  | _ + 1, _ :: _, [] => ([], [])
  | n + 1, gc :: gs, tc :: ts =>
      let pr := pass1 n gs ts
      if gc = tc then (LetterResult.Correct :: pr.1, nullChar :: pr.2)
      else (LetterResult.Absent :: pr.1, tc :: pr.2)

/-- Rust Iterator::position over a list. -/
def find_position (p : α → Bool) : List α → Option Nat
  | [] => none
  | x :: xs => if p x then some 0 else (find_position p xs).map (· + 1)

/-- Second pass: for each position still Absent, consume a not-yet-tombstoned
target occurrence of the guessed letter and mark it Present.  Mirrors the
second `for` loop of evaluate_guess. -/
def pass2 : List Char → List LetterResult → List Char → List LetterResult × List Char
  | _, [], tc => ([], tc)
  | [], r :: rs, tc => (r :: rs, tc)
  | gc :: gs, r :: rs, tc =>
      if r = LetterResult.Absent then
        match find_position (fun c => c == gc && !(c == nullChar)) tc with
        | some pos =>
            let pr := pass2 gs rs (tc.set pos nullChar)
            (LetterResult.Present :: pr.1, pr.2)
        | none =>
            let pr := pass2 gs rs tc
            (r :: pr.1, pr.2)
      else
        let pr := pass2 gs rs tc
        (r :: pr.1, pr.2)

/-- The body of evaluate_guess, total on inputs with at least WORD_LENGTH
characters (the only way the Rust body is reached without panicking). -/
def evaluate_guess_core (guess target : List Char) : List LetterResult :=
  let guess_chars := guess.map Char.toUpper
  let p1 := pass1 WORD_LENGTH guess_chars target
  (pass2 guess_chars p1.1 p1.2).1

/-- evaluate_guess with the index-out-of-bounds panic made explicit: the Rust
code indexes positions 0..WORD_LENGTH of both strings, so inputs with fewer
than WORD_LENGTH characters abort (none). -/
def evaluate_guess (guess target : List Char) : Option (List LetterResult) :=
  if (guess.map Char.toUpper).length < WORD_LENGTH ∨ target.length < WORD_LENGTH then none
  else some (evaluate_guess_core guess target)

/-- Number of verdict positions that carry the letter c in the guess and are
marked Correct or Present (positions are paired until either list ends, as
in the verdict array of length WORD_LENGTH). -/
def markCount (g : List Char) (res : List LetterResult) (c : Char) : Nat :=
  match g, res with
  | gc :: gs, r :: rs =>
      (if gc = c ∧ r ≠ LetterResult.Absent then 1 else 0) + markCount gs rs c
  | _, _ => 0

/-! ### Scoring engine (src/instructions/game/scoring.rs) -/

def calculate_base_score (guesses_used : Nat) : Nat :=
  match guesses_used with
  | 1 => SCORE_GUESS_1
  | 2 => SCORE_GUESS_2
  | 3 => SCORE_GUESS_3
  | 4 => SCORE_GUESS_4
  | 5 => SCORE_GUESS_5
  | 6 => SCORE_GUESS_6
  | 7 => SCORE_GUESS_7
  | _ => 0

def calculate_time_bonus (time_ms : Nat) : Nat :=
  if time_ms < TIME_BONUS_TIER_1 then BONUS_TIER_1
  else if time_ms < TIME_BONUS_TIER_2 then BONUS_TIER_2
  else if time_ms < TIME_BONUS_TIER_3 then BONUS_TIER_3
  else if time_ms < TIME_BONUS_TIER_4 then BONUS_TIER_4
  else 0

def calculate_final_score (is_solved : Bool) (guesses_used : Nat) (time_ms : Nat) : Nat :=
  if !is_solved then 0
  else calculate_base_score guesses_used + calculate_time_bonus time_ms

/-! ### Prize splitter (src/instructions/prize/distribution.rs)

The Rust arithmetic is on u64.  Solana programs are compiled in release
mode, where arithmetic wraps modulo 2 ^ 64, hence the explicit reductions;
saturating_sub on Nat is plain truncated subtraction. -/

structure PrizeSplit where
  first_place : Nat
  second_place : Nat
  third_place : Nat
deriving DecidableEq

/-- calculate_prize_splits: basis-point shares of the vault balance, with the
integer-division remainder folded into first place.  The winner_splits array
of three u16 values is passed as three Nat arguments. -/
def calculate_prize_splits (vault_balance : Nat) (w1 w2 w3 : Nat) : PrizeSplit :=
  let first_amount := vault_balance * w1 % U64 / BASIS_POINTS_TOTAL
  let second_amount := vault_balance * w2 % U64 / BASIS_POINTS_TOTAL
  let third_amount := vault_balance * w3 % U64 / BASIS_POINTS_TOTAL
  let total_distributed := ((first_amount + second_amount) % U64 + third_amount) % U64
  let remainder := vault_balance - total_distributed
  { first_place := (first_amount + remainder) % U64
    second_place := second_amount
    third_place := third_amount }

/-- validate_prize_splits: require the three shares to sum exactly to the
vault balance. -/
def validate_prize_splits (vault_balance : Nat) (s : PrizeSplit) : Except VobleError Unit :=
  let total := ((s.first_place + s.second_place) % U64 + s.third_place) % U64
  if total = vault_balance then Except.ok () else Except.error VobleError.InvalidPrizeAmount

/-! ### Entitlement claim protocol (src/instructions/prize/claim.rs)

claim_daily, claim_weekly and claim_monthly run the same logic against
their respective prize vaults.  The lamport balances of the vault and the
winner wallet, and the rent-exempt minimum of the vault account, are
carried explicitly in the state. -/

structure WinnerEntitlement where
  player : Nat
  period_type : String
  period_id : String
  rank : Nat
  amount : Nat
  claimed : Bool
deriving DecidableEq

structure ClaimPrizeState where
  winner_entitlement : WinnerEntitlement
  vault_lamports : Nat
  winner_lamports : Nat
  vault_min_balance : Nat
deriving DecidableEq

/-- Shared body of the three claim handlers: reject if already claimed,
reject if the vault cannot cover amount plus rent minimum, otherwise
transfer amount from the vault to the winner and set claimed. -/
def claim_prize_step (st : ClaimPrizeState) : Except VobleError ClaimPrizeState :=
  if st.winner_entitlement.claimed then Except.error VobleError.AlreadyClaimed
  else
    let amount := st.winner_entitlement.amount
    if st.vault_lamports < (amount + st.vault_min_balance) % U64 then
      Except.error VobleError.InsufficientVaultBalance
    else
      Except.ok
        { st with
          winner_entitlement := { st.winner_entitlement with claimed := true }
          vault_lamports := st.vault_lamports - amount
          winner_lamports := (st.winner_lamports + amount) % U64 }

def claim_daily (st : ClaimPrizeState) : Except VobleError ClaimPrizeState :=
  claim_prize_step st

def claim_weekly (st : ClaimPrizeState) : Except VobleError ClaimPrizeState :=
  claim_prize_step st

def claim_monthly (st : ClaimPrizeState) : Except VobleError ClaimPrizeState :=
  claim_prize_step st

/-- Anchor transaction semantics: a handler that returns an error applies no
state change. -/
def apply_claim (f : ClaimPrizeState → Except VobleError ClaimPrizeState)
    (st : ClaimPrizeState) : ClaimPrizeState :=
  match f st with
  | Except.ok st2 => st2
  | Except.error _ => st

/-- n successive claim attempts, each applied transactionally. -/
def repeat_claim (f : ClaimPrizeState → Except VobleError ClaimPrizeState) :
    Nat → ClaimPrizeState → ClaimPrizeState
  | 0, st => st
  | n + 1, st => repeat_claim f n (apply_claim f st)

/-! ### Leaderboard state (src/state/leaderboard.rs) -/

inductive PeriodType where
  | Daily
  | Weekly
  | Monthly
deriving DecidableEq

structure LeaderEntry where
  player : Nat
  score : Nat
  guesses_used : Nat
  time_ms : Nat
  timestamp : Int
  username : String
deriving DecidableEq

structure PeriodLeaderboard where
  period_id : String
  period_type : PeriodType
  entries : List LeaderEntry
  total_players : Nat
  prize_pool : Nat
  finalized : Bool
  created_at : Int
  finalized_at : Option Int
deriving DecidableEq

/-! ### Leaderboard updates in update_player_stats
(src/instructions/game/update_player_stats.rs)

The handler builds one new entry from the committed session and the user
profile, applies the replace-if-better policy to the daily board and the
accumulate policy to the weekly and monthly boards, then re-sorts all three
boards by score descending with ties broken by ascending time, truncating
to 100 entries.  The data of the new entry is gathered in NewEntryData. -/

structure NewEntryData where
  player : Nat
  score : Nat
  guesses_used : Nat
  time_ms : Nat
  timestamp : Int
  username : String
deriving DecidableEq

def mk_leader_entry (d : NewEntryData) : LeaderEntry :=
  { player := d.player, score := d.score, guesses_used := d.guesses_used,
    time_ms := d.time_ms, timestamp := d.timestamp, username := d.username }

/-- The for loop of the update_daily closure: find the first entry of this
player; replace it when the new score is strictly greater, keep it
otherwise (some result), or report that no entry was found (none). -/
def update_entries_daily (es : List LeaderEntry) (d : NewEntryData) :
    Option (List LeaderEntry) :=
  match es with
  | [] => none
  | e :: rest =>
      if e.player = d.player then
        some ((if d.score > e.score then mk_leader_entry d else e) :: rest)
      else
        (update_entries_daily rest d).map (e :: ·)

/-- The update_daily closure (lines 36-62): skip when finalized or the score
is zero, otherwise replace-if-better or append and count a new player. -/
def update_daily (lb : PeriodLeaderboard) (d : NewEntryData) : PeriodLeaderboard :=
  if lb.finalized || d.score == 0 then lb
  else
    match update_entries_daily lb.entries d with
    | some es => { lb with entries := es }
    | none =>
        { lb with
          entries := lb.entries ++ [mk_leader_entry d]
          total_players := (lb.total_players + 1) % U32 }

/-- In-place mutation of the found entry in the accumulate_score closure:
saturating score addition and refresh of the auxiliary fields. -/
def accumulate_entry (e : LeaderEntry) (d : NewEntryData) : LeaderEntry :=
  { e with
    score := satAdd e.score d.score
    timestamp := d.timestamp
    username := d.username
    guesses_used := d.guesses_used
    time_ms := d.time_ms }

/-- The for loop of the accumulate_score closure. -/
def update_entries_accumulate (es : List LeaderEntry) (d : NewEntryData) :
    Option (List LeaderEntry) :=
  match es with
  | [] => none
  | e :: rest =>
      if e.player = d.player then some (accumulate_entry e d :: rest)
      else (update_entries_accumulate rest d).map (e :: ·)

/-- The accumulate_score closure (lines 64-98). -/
def accumulate_score (lb : PeriodLeaderboard) (d : NewEntryData) : PeriodLeaderboard :=
  if lb.finalized || d.score == 0 then lb
  else
    match update_entries_accumulate lb.entries d with
    | some es => { lb with entries := es }
    | none =>
        { lb with
          entries := lb.entries ++ [mk_leader_entry d]
          total_players := (lb.total_players + 1) % U32 }

/-- The sort comparator of the final loop (lines 105-110): a may precede b
iff the comparator does not answer Greater, that is a has the higher score,
or equal scores and a the lower or equal time.  Guesses are not compared. -/
def le_entry (a b : LeaderEntry) : Bool :=
  decide (b.score < a.score) || (decide (a.score = b.score) && decide (a.time_ms ≤ b.time_ms))

/-- The comparator as a relation, for the stable sort. -/
def entry_le (a b : LeaderEntry) : Prop := le_entry a b = true

instance : DecidableRel entry_le :=
  fun a b => (inferInstance : Decidable (le_entry a b = true))

instance : IsTotal LeaderEntry entry_le :=
  ⟨fun a b => by
    simp only [entry_le, le_entry, Bool.or_eq_true, Bool.and_eq_true, decide_eq_true_eq]
    omega⟩

instance : IsTrans LeaderEntry entry_le :=
  ⟨fun a b c h1 h2 => by
    simp only [entry_le, le_entry, Bool.or_eq_true, Bool.and_eq_true, decide_eq_true_eq] at *
    omega⟩

/-- The final loop body (lines 100-117): stable sort by the comparator, then
keep only the top 100 entries.  Rust Vec::sort_by is a stable sort, and a
stable sort with respect to a total transitive comparator is unique as a
function on lists, so it is modelled by the stable List.insertionSort. -/
def sort_and_truncate (lb : PeriodLeaderboard) : PeriodLeaderboard :=
  let sorted := lb.entries.insertionSort entry_le
  { lb with entries := if sorted.length > 100 then sorted.take 100 else sorted }

/-- Action of one update_player_stats call on the daily leaderboard. -/
def update_player_stats_daily (lb : PeriodLeaderboard) (d : NewEntryData) :
    PeriodLeaderboard :=
  sort_and_truncate (update_daily lb d)

/-- Action of one update_player_stats call on the weekly or monthly
leaderboard. -/
def update_player_stats_accumulate (lb : PeriodLeaderboard) (d : NewEntryData) :
    PeriodLeaderboard :=
  sort_and_truncate (accumulate_score lb d)

/-- A sequence of update_player_stats calls, viewed on the daily board. -/
def run_daily (lb : PeriodLeaderboard) (subs : List NewEntryData) : PeriodLeaderboard :=
  subs.foldl update_player_stats_daily lb

/-- A sequence of update_player_stats calls, viewed on an accumulate board. -/
def run_accumulate (lb : PeriodLeaderboard) (subs : List NewEntryData) : PeriodLeaderboard :=
  subs.foldl update_player_stats_accumulate lb

/-- compare_entries (src/instructions/leaderboard/ranking.rs, lines 32-47):
the three-level comparator score desc, time asc, guesses asc.  It is defined
in the ranking module but not used by update_player_stats. -/
def compare_entries (a b : LeaderEntry) : Ordering :=
  match compare b.score a.score with
  | Ordering.eq =>
      match compare a.time_ms b.time_ms with
      | Ordering.eq => compare a.guesses_used b.guesses_used
      | other => other
  | other => other

/-! ### Game session state (src/state.rs) -/

structure GuessData where
  guess : List Char
  result : List LetterResult
deriving DecidableEq

structure SessionAccount where
  player : Nat
  session_id : String
  word_index : Nat
  target_word : List Char
  guesses : List (Option GuessData)
  is_solved : Bool
  guesses_used : Nat
  time_ms : Nat
  score : Nat
  completed : Bool
  period_id : String
  vrf_request_timestamp : Int
deriving DecidableEq

/-- get_word_by_index (src/instructions/game/word_selection.rs). -/
def get_word_by_index (word_index : Nat) : Except VobleError (List Char) :=
  match VOBLE_WORDS[word_index]? with
  | some w => Except.ok w
  | none => Except.error VobleError.InvalidPeriodState

def get_word_count : Nat := VOBLE_WORDS.length

/-! ### submit_guess (src/instructions/game/submit_guess.rs)

The handler validates the guess and the session state, evaluates the guess,
stores it, and auto-completes the game when it is solved or the seventh
guess is spent.  Note that the length check raises VobleError::InvalidScore
and the completed check raises VobleError::AlreadyClaimed, exactly as in
the source. -/

def submit_guess (now : Int) (session : SessionAccount) (guess : List Char) :
    Except VobleError SessionAccount :=
  if guess.length ≠ WORD_LENGTH then Except.error VobleError.InvalidScore
  else if session.completed then Except.error VobleError.AlreadyClaimed
  else if ¬ session.guesses_used < MAX_GUESSES then Except.error VobleError.InvalidGuessCount
  else if ¬ session.word_index < get_word_count then Except.error VobleError.InvalidPeriodState
  else
    match get_word_by_index session.word_index with
    | Except.error e => Except.error e
    | Except.ok target_word =>
      let guess_upper := guess.map Char.toUpper
      let result := evaluate_guess_core guess_upper target_word
      let is_correct := result.all (· == LetterResult.Correct)
      let s1 :=
        { session with
          is_solved := if is_correct then true else session.is_solved
          guesses := session.guesses.set session.guesses_used
            (some { guess := guess_upper, result := result })
          guesses_used := session.guesses_used + 1 }
      let game_ended := is_correct || s1.guesses_used ≥ MAX_GUESSES
      if game_ended then
        let time_elapsed := castU64 (now - session.vrf_request_timestamp) * 1000 % U64
        let final_score := calculate_final_score s1.is_solved s1.guesses_used time_elapsed
        Except.ok
          { s1 with
            time_ms := time_elapsed
            score := final_score
            completed := true
            target_word := target_word }
      else
        Except.ok s1

/-- Transactional application of submit_guess: an error leaves the session
unchanged. -/
def apply_submit_guess (now : Int) (session : SessionAccount) (guess : List Char) :
    SessionAccount :=
  match submit_guess now session guess with
  | Except.ok s2 => s2
  | Except.error _ => session

/-- validate_guess (src/utils/validation.rs, lines 185-194): the dedicated
guess validator, which raises VobleError::InvalidGuessLength on a length
mismatch.  It is exported but not called by submit_guess. -/
def validate_guess (guess : List Char) : Except VobleError Unit :=
  if guess.length ≠ WORD_LENGTH then Except.error VobleError.InvalidGuessLength
  else if ¬ guess.all Char.isAlpha then Except.error VobleError.InvalidGuess
  else Except.ok ()

/-! ### User profile and settlement
(src/instructions/game/update_player_stats.rs, lines 119-160)

The f32 field average_guesses of the Rust UserProfile is floating point and
is not modelled; no claim refers to it. -/

structure UserProfile where
  player : Nat
  username : String
  total_games_played : Nat
  games_won : Nat
  current_streak : Nat
  max_streak : Nat
  total_score : Nat
  best_score : Nat
  guess_distribution : List Nat
  last_played_period : String
  has_played_this_period : Bool
  created_at : Int
  last_played : Int
deriving DecidableEq

/-- Profile statistics update run by update_player_stats for every completed
session. -/
def update_profile (profile : UserProfile) (session : SessionAccount) (now : Int) :
    UserProfile :=
  let p1 := { profile with total_games_played := (profile.total_games_played + 1) % U32 }
  let p2 :=
    if session.is_solved then
      let streak := (p1.current_streak + 1) % U32
      { p1 with
        games_won := (p1.games_won + 1) % U32
        current_streak := streak
        max_streak := if streak > p1.max_streak then streak else p1.max_streak }
    else
      { p1 with current_streak := 0 }
  let p3 := { p2 with total_score := (p2.total_score + session.score) % U64 }
  let p4 := if session.score > p3.best_score then { p3 with best_score := session.score } else p3
  let p5 :=
    if session.is_solved ∧ session.guesses_used > 0 ∧ session.guesses_used ≤ 7 then
      { p4 with
        guess_distribution :=
          p4.guess_distribution.set (session.guesses_used - 1)
            ((p4.guess_distribution.getD (session.guesses_used - 1) 0 + 1) % U32) }
    else p4
  { p5 with
    last_played_period := session.period_id
    has_played_this_period := true
    last_played := now }

/-- The shared records touched by one update_player_stats call. -/
structure StatsCtx where
  daily_leaderboard : PeriodLeaderboard
  weekly_leaderboard : PeriodLeaderboard
  monthly_leaderboard : PeriodLeaderboard
  user_profile : UserProfile
deriving DecidableEq

/-- update_player_stats (src/instructions/game/update_player_stats.rs): skip
sessions that are not completed; otherwise fold the session score into the
three period leaderboards (replace-if-better on daily, accumulate on weekly
and monthly, then the unconditional sort-and-truncate loop) and update the
profile statistics. -/
def update_player_stats (now : Int) (session : SessionAccount) (ctx : StatsCtx) : StatsCtx :=
  if ¬ session.completed then ctx
  else
    let d : NewEntryData :=
      { player := session.player
        score := session.score
        guesses_used := session.guesses_used
        time_ms := session.time_ms
        timestamp := now
        username := ctx.user_profile.username }
    { daily_leaderboard := update_player_stats_daily ctx.daily_leaderboard d
      weekly_leaderboard := update_player_stats_accumulate ctx.weekly_leaderboard d
      monthly_leaderboard := update_player_stats_accumulate ctx.monthly_leaderboard d
      user_profile := update_profile ctx.user_profile session now }

/-! ### Leaderboard update inside complete_voble_game
(src/instructions/game/complete_game.rs, lines 107-167)

This handler sorts by score only and runs the whole update under the guard
that the board is not finalized and the final score is positive. -/

def le_score_only (a b : LeaderEntry) : Bool := decide (b.score ≤ a.score)

/-- The complete_voble_game comparator (score only) as a relation. -/
def entry_score_le (a b : LeaderEntry) : Prop := le_score_only a b = true

instance : DecidableRel entry_score_le :=
  fun a b => (inferInstance : Decidable (le_score_only a b = true))

/-- The for loop of complete_voble_game: it breaks out on the first matching
player, but sets updated_existing only when the new score is strictly
better, so a matching entry with a lower-or-equal new score still falls
through to the push below (some = replaced in place, none = push). -/
def update_entries_complete (es : List LeaderEntry) (d : NewEntryData) :
    Option (List LeaderEntry) :=
  match es with
  | [] => none
  | e :: rest =>
      if e.player = d.player then
        if d.score > e.score then some (mk_leader_entry d :: rest) else none
      else
        (update_entries_complete rest d).map (e :: ·)

def complete_game_update_leaderboard (lb : PeriodLeaderboard) (d : NewEntryData) :
    PeriodLeaderboard :=
  if ¬ lb.finalized ∧ d.score > 0 then
    let after :=
      match update_entries_complete lb.entries d with
      | some es => { lb with entries := es }
      | none =>
          { lb with
            entries := lb.entries ++ [mk_leader_entry d]
            total_players := (lb.total_players + 1) % U32 }
    let sorted := after.entries.insertionSort entry_score_le
    { after with entries := if sorted.length > 100 then sorted.take 100 else sorted }
  else lb

/-- initialize_period_leaderboard (src/instructions/leaderboard.rs): a fresh
board is empty and not finalized. -/
def init_leaderboard (period_id : String) (pt : PeriodType) (now : Int) : PeriodLeaderboard :=
  { period_id := period_id
    period_type := pt
    entries := []
    total_players := 0
    prize_pool := 0
    finalized := false
    created_at := now
    finalized_at := none }

/-! ### Spec-side reference definitions, for refinement comparisons -/

/-- Modelled from the spec: the base-score table of section 4.2,
mapping 1..7 guesses to 1000, 800, 600, 400, 300, 200, 100. -/
def spec_base_score (guesses : Nat) : Nat :=
  match guesses with
  | 1 => 1000
  | 2 => 800
  | 3 => 600
  | 4 => 400
  | 5 => 300
  | 6 => 200
  | 7 => 100
  | _ => 0

/-- Modelled from the spec: the four-tier time bonus of section 4.2. -/
def spec_time_bonus (time_ms : Nat) : Nat :=
  if time_ms < 30000 then 500
  else if time_ms < 60000 then 300
  else if time_ms < 120000 then 150
  else if time_ms < 300000 then 50
  else 0

/-- Modelled from the spec: the claimed leaderboard order of section 4.4,
score descending with exact score ties broken by lower elapsed time and
remaining ties by fewer guesses used. -/
def spec_le_entry (a b : LeaderEntry) : Bool :=
  decide (b.score < a.score) ||
    (decide (a.score = b.score) &&
      (decide (a.time_ms < b.time_ms) ||
        (decide (a.time_ms = b.time_ms) && decide (a.guesses_used ≤ b.guesses_used))))

/-- A list is ordered exactly as the spec claims. -/
def spec_claim_ordered (l : List LeaderEntry) : Prop :=
  l.Pairwise (fun a b => spec_le_entry a b = true)

instance : DecidablePred spec_claim_ordered :=
  fun l => List.instDecidablePairwise l

/-! ### Score bookkeeping used to state the leaderboard policy claims -/

def entry_players (l : List LeaderEntry) : List Nat := l.map LeaderEntry.player

/-- Saturating sum of all scores submitted by player p, in order. -/
def satScoreSum (p : Nat) (subs : List NewEntryData) : Nat :=
  (subs.filter (fun d => d.player == p)).foldl (fun acc d => satAdd acc d.score) 0

/-- Best score submitted by player p. -/
def bestScore (p : Nat) (subs : List NewEntryData) : Nat :=
  (subs.filter (fun d => d.player == p)).foldl (fun acc d => max acc d.score) 0

/-! ### Concrete fixtures for witnesses and counterexamples -/

/-- A claimed entitlement state. -/
def stC2 : ClaimPrizeState :=
  { winner_entitlement :=
      { player := 1, period_type := "daily", period_id := "D1", rank := 1,
        amount := 500000, claimed := true }
    vault_lamports := 2000000
    winner_lamports := 0
    vault_min_balance := 890880 }

/-- A fresh session, one matching buy_ticket_and_start_game output. -/
def freshSession : SessionAccount :=
  { player := 7
    session_id := "s1"
    word_index := 0
    target_word := []
    guesses := List.replicate 7 none
    is_solved := false
    guesses_used := 0
    time_ms := 0
    score := 0
    completed := false
    period_id := "D1"
    vrf_request_timestamp := 0 }

/-- A completed session (solved in three guesses). -/
def completedSession : SessionAccount :=
  { freshSession with
    is_solved := true
    guesses_used := 3
    time_ms := 45000
    score := 900
    completed := true
    target_word := ['A','N','C','H','O','R'] }

/-- A completed but unsolved session: final score zero. -/
def zeroScoreSession : SessionAccount :=
  { freshSession with
    is_solved := false
    guesses_used := 7
    time_ms := 45000
    score := 0
    completed := true
    target_word := ['A','N','C','H','O','R'] }

/-- Invariant tying an accumulate board to the submissions processed so far:
the board is open, player entries are unique, every entry belongs to a
player that submitted, every entry carries the saturating sum of its player
submissions, and every player with a nonzero sum has an entry. -/
def acc_inv (processed : List NewEntryData) (lb : PeriodLeaderboard) : Prop :=
  lb.finalized = false ∧
  (entry_players lb.entries).Nodup ∧
  (∀ e ∈ lb.entries, e.player ∈ processed.map NewEntryData.player) ∧
  (∀ e ∈ lb.entries, e.score = satScoreSum e.player processed) ∧
  (∀ p, satScoreSum p processed ≠ 0 → ∃ e ∈ lb.entries, e.player = p)

/-- Invariant tying a replace-if-better board to the submissions processed
so far: every entry carries the best score its player submitted. -/
def daily_inv (processed : List NewEntryData) (lb : PeriodLeaderboard) : Prop :=
  lb.finalized = false ∧
  (entry_players lb.entries).Nodup ∧
  (∀ e ∈ lb.entries, e.player ∈ processed.map NewEntryData.player) ∧
  (∀ e ∈ lb.entries, e.score = bestScore e.player processed) ∧
  (∀ p, bestScore p processed ≠ 0 → ∃ e ∈ lb.entries, e.player = p)

/-- A submission sequence that overflows the 100-entry cap: player 0 scores
10, then one hundred distinct players each score 1000 (player 0 is truncated
off the board), then player 0 scores 3000. -/
def subsC6 : List NewEntryData :=
  ({ player := 0, score := 10, guesses_used := 3, time_ms := 1000, timestamp := 0,
     username := "p" } ::
    (List.range 100).map (fun i =>
      { player := i + 1, score := 1000, guesses_used := 3, time_ms := 1000, timestamp := 0,
        username := "q" })) ++
    [{ player := 0, score := 3000, guesses_used := 2, time_ms := 900, timestamp := 7,
       username := "p" }]

/-- Two submissions by the same player, for the accumulate witness. -/
def subsC6w : List NewEntryData :=
  [{ player := 1, score := 5, guesses_used := 3, time_ms := 1000, timestamp := 0,
     username := "a" },
   { player := 1, score := 7, guesses_used := 4, time_ms := 2000, timestamp := 5,
     username := "b" }]

/-- The accumulated entry the witness run produces. -/
def entryC6w : LeaderEntry :=
  { player := 1, score := 12, guesses_used := 4, time_ms := 2000, timestamp := 5,
    username := "b" }

/-- Two submissions with equal score and equal time but different guess
counts, the less efficient one first. -/
def d1C4 : NewEntryData :=
  { player := 1, score := 900, guesses_used := 5, time_ms := 45000, timestamp := 0,
    username := "alice" }

def d2C4 : NewEntryData :=
  { player := 2, score := 900, guesses_used := 3, time_ms := 45000, timestamp := 0,
    username := "bob" }

/-- A daily board whose two equal-score entries are out of time order, as the
score-only sort of the update_leaderboard instruction can leave them. -/
def lbC10 : PeriodLeaderboard :=
  { period_id := "D1"
    period_type := PeriodType.Daily
    entries :=
      [{ player := 1, score := 900, guesses_used := 4, time_ms := 50000, timestamp := 0,
         username := "alice" },
       { player := 2, score := 900, guesses_used := 4, time_ms := 40000, timestamp := 0,
         username := "bob" }]
    total_players := 2
    prize_pool := 0
    finalized := false
    created_at := 0
    finalized_at := none }

def profileC10 : UserProfile :=
  { player := 7
    username := "carol"
    total_games_played := 3
    games_won := 1
    current_streak := 1
    max_streak := 1
    total_score := 900
    best_score := 900
    guess_distribution := [0, 0, 1, 0, 0, 0, 0]
    last_played_period := "D0"
    has_played_this_period := false
    created_at := 0
    last_played := 0 }

def ctxC10 : StatsCtx :=
  { daily_leaderboard := lbC10
    weekly_leaderboard := init_leaderboard "W1" PeriodType.Weekly 0
    monthly_leaderboard := init_leaderboard "M1" PeriodType.Monthly 0
    user_profile := profileC10 }

/-! ## Theorems -/

/-- Helper: a claim handler that fails on a state leaves the repeated
transactional application of that handler at that state. -/
theorem repeat_claim_of_fixed (f : ClaimPrizeState → Except VobleError ClaimPrizeState)
    (st : ClaimPrizeState) (h : apply_claim f st = st) :
    ∀ n, repeat_claim f n st = st := by
  intro n
  induction n with
  | zero => rfl
  | succ n ih => rw [repeat_claim, h, ih]

/-- C5: calculate_final_score returns 0 whenever is_solved is false; when
solved with 1..7 guesses it returns the fixed base table plus the four-tier
time bonus, matching the spec scoring tables; in particular
score(true, 1, 25000) = 1500, score(true, 3, 45000) = 900 and
score(true, 7, 600000) = 100. -/
theorem claim_C5_final_score_formula :
    (∀ g t, calculate_final_score false g t = 0) ∧
    (∀ g t, 1 ≤ g → g ≤ 7 →
      calculate_final_score true g t = spec_base_score g + spec_time_bonus t) ∧
    calculate_final_score true 1 25000 = 1500 ∧
    calculate_final_score true 3 45000 = 900 ∧
    calculate_final_score true 7 600000 = 100 := by
  refine ⟨fun g t => rfl, fun g t h1 h7 => ?_, by decide, by decide, by decide⟩
  have hbase : calculate_base_score g = spec_base_score g := by
    interval_cases g <;> rfl
  have hbonus : calculate_time_bonus t = spec_time_bonus t := by
    unfold calculate_time_bonus spec_time_bonus
    unfold TIME_BONUS_TIER_1 TIME_BONUS_TIER_2 TIME_BONUS_TIER_3 TIME_BONUS_TIER_4
    unfold BONUS_TIER_1 BONUS_TIER_2 BONUS_TIER_3 BONUS_TIER_4
    rfl
  unfold calculate_final_score
  rw [hbase, hbonus]
  rfl

/-- C5 witness: the solved-score formula instantiated at 2 guesses in
10000 ms. -/
theorem claim_C5_witness :
    calculate_final_score true 2 10000 = spec_base_score 2 + spec_time_bonus 10000 :=
  claim_C5_final_score_formula.2.1 2 10000 (by decide) (by decide)

/-- C8: the worked examples of the spec use five-letter words, but
WORD_LENGTH is six, so evaluate_guess indexes past the end of both strings
on each of them and produces no verdict array at all (in Rust, an index
panic); the claimed outputs are not produced.  The in-repo unit tests of
scoring.rs assert these very outputs and fail the same way. -/
theorem claim_C8_worked_examples_panic :
    WORD_LENGTH = 6 ∧
    evaluate_guess ['C','R','A','N','E'] ['C','R','A','N','E'] = none ∧
    evaluate_guess ['A','B','C','D','E'] ['F','G','H','I','J'] = none ∧
    evaluate_guess ['A','N','G','E','R'] ['C','R','A','N','E'] = none := by
  decide

/-- C2: an entitlement whose claimed flag is set makes claim_daily,
claim_weekly and claim_monthly all fail with AlreadyClaimed before any
transfer, and any number of repeated transactional attempts leaves the
entitlement, the vault balance and the winner balance unchanged. -/
theorem claim_C2_already_claimed (st : ClaimPrizeState)
    (h : st.winner_entitlement.claimed = true) :
    claim_daily st = Except.error VobleError.AlreadyClaimed ∧
    claim_weekly st = Except.error VobleError.AlreadyClaimed ∧
    claim_monthly st = Except.error VobleError.AlreadyClaimed ∧
    (∀ n, repeat_claim claim_daily n st = st) ∧
    (∀ n, repeat_claim claim_weekly n st = st) ∧
    (∀ n, repeat_claim claim_monthly n st = st) := by
  have hstep : claim_prize_step st = Except.error VobleError.AlreadyClaimed := by
    unfold claim_prize_step
    rw [h]
    rfl
  have happly : apply_claim claim_prize_step st = st := by
    unfold apply_claim
    rw [hstep]
  refine ⟨hstep, hstep, hstep, ?_, ?_, ?_⟩ <;>
    exact repeat_claim_of_fixed _ st happly

/-- C2 witness: the already-claimed rejection at a concrete entitlement
state, repeated three times. -/
theorem claim_C2_witness :
    claim_daily stC2 = Except.error VobleError.AlreadyClaimed ∧
    repeat_claim claim_daily 3 stC2 = stC2 :=
  ⟨(claim_C2_already_claimed stC2 (by decide)).1,
   (claim_C2_already_claimed stC2 (by decide)).2.2.2.1 3⟩

/-- C7: a session with completed = true makes submit_guess fail for every
guess (with AlreadyClaimed when the guess has the right length, with the
length error otherwise), and the transactional application leaves the
session unchanged: completion is terminal. -/
theorem claim_C7_completed_is_terminal (now : Int) (s : SessionAccount) (g : List Char)
    (h : s.completed = true) :
    (∃ e, submit_guess now s g = Except.error e) ∧
    (g.length = WORD_LENGTH → submit_guess now s g = Except.error VobleError.AlreadyClaimed) ∧
    apply_submit_guess now s g = s := by
  by_cases hl : g.length = WORD_LENGTH
  · have hres : submit_guess now s g = Except.error VobleError.AlreadyClaimed := by
      unfold submit_guess
      rw [if_neg (by simp [hl]), h]
      rfl
    exact ⟨⟨_, hres⟩, fun _ => hres, by unfold apply_submit_guess; rw [hres]⟩
  · have hres : submit_guess now s g = Except.error VobleError.InvalidScore := by
      unfold submit_guess
      rw [if_pos hl]
    exact ⟨⟨_, hres⟩, fun hc => absurd hc hl, by unfold apply_submit_guess; rw [hres]⟩

/-- C7 witness: a completed session rejects a well-formed six-letter guess
with an error and stays unchanged. -/
theorem claim_C7_witness :
    submit_guess 0 completedSession ['B','R','I','D','G','E'] =
      Except.error VobleError.AlreadyClaimed ∧
    apply_submit_guess 0 completedSession ['B','R','I','D','G','E'] = completedSession :=
  ⟨(claim_C7_completed_is_terminal 0 completedSession _ (by decide)).2.1 (by decide),
   (claim_C7_completed_is_terminal 0 completedSession _ (by decide)).2.2⟩

/-- Helper: the three basis-point shares never exceed the vault balance when
the weights sum to 10000. -/
theorem prize_shares_le (V w1 w2 w3 : Nat) (hsum : w1 + w2 + w3 = 10000) :
    V * w1 % U64 / BASIS_POINTS_TOTAL + V * w2 % U64 / BASIS_POINTS_TOTAL
      + V * w3 % U64 / BASIS_POINTS_TOTAL ≤ V := by
  have hVsum : V * w1 + V * w2 + V * w3 = V * 10000 := by
    rw [← Nat.mul_add, ← Nat.mul_add, hsum]
  have m1 : V * w1 % U64 ≤ V * w1 := Nat.mod_le _ _
  have m2 : V * w2 % U64 ≤ V * w2 := Nat.mod_le _ _
  have m3 : V * w3 % U64 ≤ V * w3 := Nat.mod_le _ _
  rw [show BASIS_POINTS_TOTAL = 10000 from rfl]
  obtain ⟨C1, hC1⟩ : ∃ x, V * w1 % U64 = x := ⟨_, rfl⟩
  obtain ⟨C2, hC2⟩ : ∃ x, V * w2 % U64 = x := ⟨_, rfl⟩
  obtain ⟨C3, hC3⟩ : ∃ x, V * w3 % U64 = x := ⟨_, rfl⟩
  obtain ⟨B1, hB1⟩ : ∃ x, V * w1 = x := ⟨_, rfl⟩
  obtain ⟨B2, hB2⟩ : ∃ x, V * w2 = x := ⟨_, rfl⟩
  obtain ⟨B3, hB3⟩ : ∃ x, V * w3 = x := ⟨_, rfl⟩
  rw [hC1] at m1; rw [hC2] at m2; rw [hC3] at m3
  rw [hC1, hC2, hC3]
  rw [hB1] at m1; rw [hB2] at m2; rw [hB3] at m3
  rw [hB1, hB2, hB3] at hVsum
  omega

/-- C1 (amended): for every vault balance V below 2 ^ 64 and weights summing
to 10000, the three computed shares sum to exactly V and
validate_prize_splits accepts them; the individual floor formulas
second = V * w2 / 10000, third = V * w3 / 10000 and
first = V * w1 / 10000 + remainder additionally hold whenever the
basis-point products stay below 2 ^ 64 (no u64 overflow). -/
theorem claim_C1_prize_splits_exact (V w1 w2 w3 : Nat) (hV : V < U64)
    (hsum : w1 + w2 + w3 = 10000) :
    (calculate_prize_splits V w1 w2 w3).first_place
        + (calculate_prize_splits V w1 w2 w3).second_place
        + (calculate_prize_splits V w1 w2 w3).third_place = V ∧
    validate_prize_splits V (calculate_prize_splits V w1 w2 w3) = Except.ok () ∧
    (V * 10000 < U64 →
      (calculate_prize_splits V w1 w2 w3).second_place = V * w2 / 10000 ∧
      (calculate_prize_splits V w1 w2 w3).third_place = V * w3 / 10000 ∧
      (calculate_prize_splits V w1 w2 w3).first_place =
        V * w1 / 10000
          + (V - (V * w1 / 10000 + V * w2 / 10000 + V * w3 / 10000))) := by
  have hT := prize_shares_le V w1 w2 w3 hsum
  have hraw : calculate_prize_splits V w1 w2 w3 =
      { first_place := (V * w1 % U64 / BASIS_POINTS_TOTAL +
            (V - ((V * w1 % U64 / BASIS_POINTS_TOTAL + V * w2 % U64 / BASIS_POINTS_TOTAL) % U64
              + V * w3 % U64 / BASIS_POINTS_TOTAL) % U64)) % U64,
        second_place := V * w2 % U64 / BASIS_POINTS_TOTAL,
        third_place := V * w3 % U64 / BASIS_POINTS_TOTAL } := rfl
  obtain ⟨a1, hg1⟩ : ∃ x, V * w1 % U64 / BASIS_POINTS_TOTAL = x := ⟨_, rfl⟩
  obtain ⟨a2, hg2⟩ : ∃ x, V * w2 % U64 / BASIS_POINTS_TOTAL = x := ⟨_, rfl⟩
  obtain ⟨a3, hg3⟩ : ∃ x, V * w3 % U64 / BASIS_POINTS_TOTAL = x := ⟨_, rfl⟩
  rw [hg1, hg2, hg3] at hraw hT
  have h12 : (a1 + a2) % U64 = a1 + a2 :=
    Nat.mod_eq_of_lt (lt_of_le_of_lt (le_trans (Nat.le_add_right _ _) hT) hV)
  rw [h12] at hraw
  have h123 : (a1 + a2 + a3) % U64 = a1 + a2 + a3 :=
    Nat.mod_eq_of_lt (lt_of_le_of_lt hT hV)
  rw [h123] at hraw
  have hfp : (a1 + (V - (a1 + a2 + a3))) % U64 = a1 + (V - (a1 + a2 + a3)) :=
    Nat.mod_eq_of_lt (by omega)
  rw [hfp] at hraw
  refine ⟨?_, ?_, ?_⟩
  · rw [hraw]
    show a1 + (V - (a1 + a2 + a3)) + a2 + a3 = V
    omega
  · rw [hraw]
    show (if ((a1 + (V - (a1 + a2 + a3)) + a2) % U64 + a3) % U64 = V
        then (Except.ok () : Except VobleError Unit)
        else Except.error VobleError.InvalidPrizeAmount) = Except.ok ()
    rw [Nat.mod_eq_of_lt (show a1 + (V - (a1 + a2 + a3)) + a2 < U64 by omega)]
    rw [Nat.mod_eq_of_lt (show a1 + (V - (a1 + a2 + a3)) + a2 + a3 < U64 by omega)]
    rw [if_pos (by omega)]
  · intro hover
    have hw1 : w1 ≤ 10000 := by omega
    have hw2 : w2 ≤ 10000 := by omega
    have hw3 : w3 ≤ 10000 := by omega
    have hm1 : V * w1 % U64 = V * w1 :=
      Nat.mod_eq_of_lt (lt_of_le_of_lt (Nat.mul_le_mul (le_refl V) hw1) hover)
    have hm2 : V * w2 % U64 = V * w2 :=
      Nat.mod_eq_of_lt (lt_of_le_of_lt (Nat.mul_le_mul (le_refl V) hw2) hover)
    have hm3 : V * w3 % U64 = V * w3 :=
      Nat.mod_eq_of_lt (lt_of_le_of_lt (Nat.mul_le_mul (le_refl V) hw3) hover)
    have e1 : a1 = V * w1 / 10000 := by rw [← hg1, hm1]; rfl
    have e2 : a2 = V * w2 / 10000 := by rw [← hg2, hm2]; rfl
    have e3 : a3 = V * w3 / 10000 := by rw [← hg3, hm3]; rfl
    refine ⟨?_, ?_, ?_⟩
    · rw [hraw]; exact e2
    · rw [hraw]; exact e3
    · rw [hraw]
      show a1 + (V - (a1 + a2 + a3)) =
        V * w1 / 10000 + (V - (V * w1 / 10000 + V * w2 / 10000 + V * w3 / 10000))
      rw [← e1, ← e2, ← e3]

/-- C1 witness: the exact-sum and floor formulas at the documented example,
a vault of 1000000 lamports split 50, 30, 20 percent. -/
theorem claim_C1_witness :
    (calculate_prize_splits 1000000 5000 3000 2000).first_place
        + (calculate_prize_splits 1000000 5000 3000 2000).second_place
        + (calculate_prize_splits 1000000 5000 3000 2000).third_place = 1000000 :=
  (claim_C1_prize_splits_exact 1000000 5000 3000 2000 (by decide) (by decide)).1

/-- C1 counterexample: at a vault balance of 2 ^ 63 with weights
5000, 3000, 2000 the u64 product 2 ^ 63 * 3000 wraps to zero, so
second_place is 0 rather than the claimed floor(V * w2 / 10000); the
per-place formulas of the claim do not hold for every vault balance. -/
theorem claim_C1_counterexample :
    5000 + 3000 + 2000 = 10000 ∧
    (calculate_prize_splits (2 ^ 63) 5000 3000 2000).second_place = 0 ∧
    2 ^ 63 * 3000 / 10000 ≠ 0 := by
  refine ⟨by norm_num, ?_, by norm_num⟩
  show 2 ^ 63 * 3000 % U64 / BASIS_POINTS_TOTAL = 0
  norm_num [U64, BASIS_POINTS_TOTAL]

/-- C9: a guess of the wrong length is rejected with no state change, but
submit_guess raises VobleError::InvalidScore, not the InvalidGuessLength
error the spec names; the dedicated validate_guess helper of
utils/validation.rs does raise InvalidGuessLength for the same input, yet
submit_guess never calls it. -/
theorem claim_C9_wrong_length_error_code :
    submit_guess 0 freshSession ['C','R','A','N','E'] =
      Except.error VobleError.InvalidScore ∧
    apply_submit_guess 0 freshSession ['C','R','A','N','E'] = freshSession ∧
    validate_guess ['C','R','A','N','E'] = Except.error VobleError.InvalidGuessLength ∧
    VobleError.InvalidScore ≠ VobleError.InvalidGuessLength := by
  refine ⟨by decide, by decide, by decide, by decide⟩

/-- Helper: the entries after the sort-and-truncate loop, written out. -/
theorem sort_and_truncate_entries (lb : PeriodLeaderboard) :
    (sort_and_truncate lb).entries =
      (if (lb.entries.insertionSort entry_le).length > 100
        then (lb.entries.insertionSort entry_le).take 100
        else lb.entries.insertionSort entry_le) := rfl

/-- Helper: after the sort-and-truncate loop the entries are sorted by the
handler comparator and number at most 100. -/
theorem sort_and_truncate_spec (lb : PeriodLeaderboard) :
    (sort_and_truncate lb).entries.Pairwise (fun a b => le_entry a b = true) ∧
    (sort_and_truncate lb).entries.length ≤ 100 := by
  rw [sort_and_truncate_entries]
  have hs : (lb.entries.insertionSort entry_le).Pairwise entry_le :=
    List.sorted_insertionSort entry_le lb.entries
  by_cases h : (lb.entries.insertionSort entry_le).length > 100
  · rw [if_pos h]
    exact ⟨List.Pairwise.sublist (List.take_sublist _ _) hs, by simp [List.length_take]⟩
  · rw [if_neg h]
    exact ⟨hs, by omega⟩

/-- C4 (amended): after every update_player_stats call, on each of the three
boards the entries are sorted by score descending with exact score ties
broken by lower elapsed time only (guess counts are not compared; entries
tied on score and time keep their insertion order), and the length never
exceeds 100, the cap this handler applies to all three boards. -/
theorem claim_C4_sorted_and_bounded (lb : PeriodLeaderboard) (d : NewEntryData) :
    ((update_player_stats_daily lb d).entries.Pairwise (fun a b => le_entry a b = true) ∧
      (update_player_stats_daily lb d).entries.length ≤ 100) ∧
    ((update_player_stats_accumulate lb d).entries.Pairwise (fun a b => le_entry a b = true) ∧
      (update_player_stats_accumulate lb d).entries.length ≤ 100) :=
  ⟨sort_and_truncate_spec _, sort_and_truncate_spec _⟩

/-- C4 counterexample: two submissions with equal scores and equal times but
different guess counts, less efficient first: after both updates the daily
entries are NOT ordered with the fewer-guesses entry ranking higher, because
the handler sort never compares guesses and the stable sort keeps insertion
order. -/
theorem claim_C4_counterexample :
    ¬ spec_claim_ordered
      (update_player_stats_daily
        (update_player_stats_daily (init_leaderboard "D1" PeriodType.Daily 0) d1C4)
        d2C4).entries := by
  decide

/-- Helper: the sort-and-truncate loop never touches total_players. -/
theorem sort_and_truncate_total_players (lb : PeriodLeaderboard) :
    (sort_and_truncate lb).total_players = lb.total_players := rfl

/-- Helper: on a board with at most 100 entries the sort-and-truncate loop
permutes the entries and drops none. -/
theorem sort_and_truncate_perm (lb : PeriodLeaderboard) (h : lb.entries.length ≤ 100) :
    (sort_and_truncate lb).entries.Perm lb.entries := by
  rw [sort_and_truncate_entries]
  rw [if_neg (by rw [List.length_insertionSort]; omega)]
  exact List.perm_insertionSort entry_le lb.entries

/-- Helper: a board that is already in the handler sort order with at most
100 entries passes through the sort-and-truncate loop unchanged. -/
theorem sort_and_truncate_of_sorted (lb : PeriodLeaderboard)
    (hs : lb.entries.Pairwise (fun a b => le_entry a b = true))
    (h : lb.entries.length ≤ 100) :
    sort_and_truncate lb = lb := by
  have hs2 : lb.entries.Sorted entry_le := hs
  have he : (sort_and_truncate lb).entries = lb.entries := by
    rw [sort_and_truncate_entries, List.Sorted.insertionSort_eq hs2]
    rw [if_neg (by omega)]
  have hshape : sort_and_truncate lb = { lb with entries := (sort_and_truncate lb).entries } :=
    rfl
  rw [hshape, he]

/-- Helper: the profile update always counts the game and marks the period
played. -/
theorem update_profile_counts (p : UserProfile) (s : SessionAccount) (now : Int) :
    (update_profile p s now).total_games_played = (p.total_games_played + 1) % U32 ∧
    (update_profile p s now).has_played_this_period = true := by
  constructor
  · simp only [update_profile, apply_ite UserProfile.total_games_played, ite_self]
  · simp only [update_profile]

/-- C10 (amended): a completed game with final score zero adds, removes and
modifies no leaderboard entry on any of the three boards (the entry multiset
is preserved whenever the board holds at most 100 entries, as every
reachable board does) and never increments total_players; the board is
literally unchanged when it was already in the handler sort order, but the
unconditional sort loop may reorder a board that was not, so the boards are
not unchanged in general.  The player profile statistics are still updated.
The leaderboard block of complete_voble_game leaves its board untouched for
a zero score. -/
theorem claim_C10_zero_score_leaves_boards (now : Int) (s : SessionAccount) (ctx : StatsCtx)
    (hc : s.completed = true) (hz : s.score = 0) :
    ((update_player_stats now s ctx).daily_leaderboard.total_players
        = ctx.daily_leaderboard.total_players ∧
      (update_player_stats now s ctx).weekly_leaderboard.total_players
        = ctx.weekly_leaderboard.total_players ∧
      (update_player_stats now s ctx).monthly_leaderboard.total_players
        = ctx.monthly_leaderboard.total_players) ∧
    (ctx.daily_leaderboard.entries.length ≤ 100 →
      (update_player_stats now s ctx).daily_leaderboard.entries.Perm
        ctx.daily_leaderboard.entries) ∧
    (ctx.weekly_leaderboard.entries.length ≤ 100 →
      (update_player_stats now s ctx).weekly_leaderboard.entries.Perm
        ctx.weekly_leaderboard.entries) ∧
    (ctx.monthly_leaderboard.entries.length ≤ 100 →
      (update_player_stats now s ctx).monthly_leaderboard.entries.Perm
        ctx.monthly_leaderboard.entries) ∧
    (ctx.daily_leaderboard.entries.Pairwise (fun a b => le_entry a b = true) →
      ctx.daily_leaderboard.entries.length ≤ 100 →
      (update_player_stats now s ctx).daily_leaderboard = ctx.daily_leaderboard) ∧
    ((update_player_stats now s ctx).user_profile.total_games_played
        = (ctx.user_profile.total_games_played + 1) % U32 ∧
      (update_player_stats now s ctx).user_profile.has_played_this_period = true) ∧
    (∀ lb d, d.score = 0 → complete_game_update_leaderboard lb d = lb) := by
  have hstep : update_player_stats now s ctx =
      { daily_leaderboard := sort_and_truncate ctx.daily_leaderboard
        weekly_leaderboard := sort_and_truncate ctx.weekly_leaderboard
        monthly_leaderboard := sort_and_truncate ctx.monthly_leaderboard
        user_profile := update_profile ctx.user_profile s now } := by
    simp only [update_player_stats, update_player_stats_daily, update_player_stats_accumulate,
      update_daily, accumulate_score, hc, hz, not_true, if_false, beq_self_eq_true,
      Bool.or_true, if_true]
  rw [hstep]
  refine ⟨⟨rfl, rfl, rfl⟩, ?_, ?_, ?_, ?_, update_profile_counts _ _ _, ?_⟩
  · exact fun h => sort_and_truncate_perm _ h
  · exact fun h => sort_and_truncate_perm _ h
  · exact fun h => sort_and_truncate_perm _ h
  · exact fun hs2 h => sort_and_truncate_of_sorted _ hs2 h
  · intro lb d hd
    unfold complete_game_update_leaderboard
    rw [if_neg (by rw [hd]; simp)]

/-- C10 witness: the zero-score settlement at a concrete context whose daily
board is sorted: all boards keep their entries and counters while the
profile advances. -/
theorem claim_C10_witness :
    (update_player_stats 0 zeroScoreSession ctxC10).user_profile.total_games_played
        = (ctxC10.user_profile.total_games_played + 1) % U32 ∧
    (update_player_stats 0 zeroScoreSession ctxC10).weekly_leaderboard.total_players
        = ctxC10.weekly_leaderboard.total_players :=
  ⟨(claim_C10_zero_score_leaves_boards 0 zeroScoreSession ctxC10 (by decide) (by decide)).2.2.2.2.2.1.1,
   (claim_C10_zero_score_leaves_boards 0 zeroScoreSession ctxC10 (by decide) (by decide)).1.2.1⟩

/-- Helper: counting a cons, with propositional equality in the head test. -/
theorem count_cons_eq (x c : Char) (l : List Char) :
    (x :: l).count c = l.count c + (if x = c then 1 else 0) := by
  simp [List.count_cons]

/-- Helper: a successful find_position returns the index of an element
satisfying the predicate; in particular such an element exists. -/
theorem find_position_some_mem (p : α → Bool) (l : List α) (i : Nat)
    (h : find_position p l = some i) : ∃ x ∈ l, p x = true := by
  induction l generalizing i with
  | nil => simp [find_position] at h
  | cons x xs ih =>
    by_cases hp : p x = true
    · exact ⟨x, List.mem_cons_self x xs, hp⟩
    · rw [find_position, if_neg hp] at h
      obtain ⟨j, hj, _⟩ := Option.map_eq_some'.mp h
      obtain ⟨y, hy, hpy⟩ := ih j hj
      exact ⟨y, List.mem_cons_of_mem x hy, hpy⟩

/-- Helper: tombstoning the slot that find_position located exchanges one
occurrence of the sought letter for one nullChar in the letter counts. -/
theorem count_set_of_find_position (tc : List Char) (gc c : Char) (pos : Nat)
    (h : find_position (fun x => x == gc && !(x == nullChar)) tc = some pos) :
    (tc.set pos nullChar).count c + (if gc = c then 1 else 0)
      = tc.count c + (if nullChar = c then 1 else 0) := by
  induction tc generalizing pos with
  | nil => simp [find_position] at h
  | cons x xs ih =>
    by_cases hp : (x == gc && !(x == nullChar)) = true
    · rw [find_position, if_pos hp] at h
      obtain ⟨hxg, _⟩ := Bool.and_eq_true_iff.mp hp
      have hx : x = gc := by simpa using hxg
      have hpos : pos = 0 := by
        cases h
        rfl
      subst hpos
      subst hx
      rw [List.set_cons_zero, count_cons_eq, count_cons_eq]
      by_cases h1 : x = c <;> by_cases h2 : nullChar = c <;> simp [h1, h2]
    · rw [find_position, if_neg hp] at h
      obtain ⟨j, hj, hpj⟩ := Option.map_eq_some'.mp h
      subst hpj
      rw [List.set_cons_succ, count_cons_eq, count_cons_eq]
      have := ih j hj
      omega

/-- Helper: over the first pass, the Correct or Present marks of a letter c
other than the tombstone, plus the surviving occurrences of c in the target
working copy, never exceed the occurrences of c in the original target. -/
theorem pass1_invariant (c : Char) (hc : c ≠ nullChar) :
    ∀ (n : Nat) (g t : List Char),
      markCount g (pass1 n g t).1 c + (pass1 n g t).2.count c ≤ t.count c := by
  intro n
  induction n with
  | zero => intro g t; simp [pass1, markCount]
  | succ n ih =>
    intro g t
    cases g with
    | nil => simp [pass1, markCount]
    | cons gc gs =>
      cases t with
      | nil => simp [pass1, markCount]
      | cons tc ts =>
        have hrec := ih gs ts
        by_cases hgt : gc = tc
        · subst hgt
          rw [show pass1 (n + 1) (gc :: gs) (gc :: ts) =
              (LetterResult.Correct :: (pass1 n gs ts).1, nullChar :: (pass1 n gs ts).2) by
            rw [pass1, if_pos rfl]]
          simp only [markCount, count_cons_eq]
          rw [if_neg (fun h => hc (Eq.symm h))]
          by_cases hgc : gc = c
          · rw [if_pos ⟨hgc, by decide⟩, if_pos hgc]
            omega
          · rw [if_neg (fun hcon => hgc hcon.1), if_neg hgc]
            omega
        · rw [show pass1 (n + 1) (gc :: gs) (tc :: ts) =
              (LetterResult.Absent :: (pass1 n gs ts).1, tc :: (pass1 n gs ts).2) by
            rw [pass1, if_neg hgt]]
          simp only [markCount, count_cons_eq]
          rw [if_neg (fun hcon => hcon.2 rfl)]
          by_cases htc : tc = c
          · rw [if_pos htc]
            omega
          · rw [if_neg htc]
            omega

/-- Helper: the first pass marks the tombstone letter at most as often as it
occurs in the target. -/
theorem pass1_null_marks :
    ∀ (n : Nat) (g t : List Char),
      markCount g (pass1 n g t).1 nullChar ≤ t.count nullChar := by
  intro n
  induction n with
  | zero => intro g t; simp [pass1, markCount]
  | succ n ih =>
    intro g t
    cases g with
    | nil => simp [pass1, markCount]
    | cons gc gs =>
      cases t with
      | nil => simp [pass1, markCount]
      | cons tc ts =>
        have hrec := ih gs ts
        by_cases hgt : gc = tc
        · subst hgt
          rw [show pass1 (n + 1) (gc :: gs) (gc :: ts) =
              (LetterResult.Correct :: (pass1 n gs ts).1, nullChar :: (pass1 n gs ts).2) by
            rw [pass1, if_pos rfl]]
          simp only [markCount, count_cons_eq]
          by_cases hgc : gc = nullChar
          · rw [if_pos ⟨hgc, by decide⟩, if_pos hgc]
            omega
          · rw [if_neg (fun hcon => hgc hcon.1), if_neg hgc]
            omega
        · rw [show pass1 (n + 1) (gc :: gs) (tc :: ts) =
              (LetterResult.Absent :: (pass1 n gs ts).1, tc :: (pass1 n gs ts).2) by
            rw [pass1, if_neg hgt]]
          simp only [markCount, count_cons_eq]
          rw [if_neg (fun hcon => hcon.2 rfl)]
          by_cases htc : tc = nullChar
          · rw [if_pos htc]
            omega
          · rw [if_neg htc]
            omega

/-- Helper: over the second pass, marks of c plus surviving occurrences of c
in the working copy never increase, for c other than the tombstone. -/
theorem pass2_invariant (c : Char) (hc : c ≠ nullChar) :
    ∀ (res : List LetterResult) (g tc : List Char),
      markCount g (pass2 g res tc).1 c + (pass2 g res tc).2.count c
        ≤ markCount g res c + tc.count c := by
  intro res
  induction res with
  | nil =>
    intro g tc
    cases g <;> simp [pass2, markCount]
  | cons r rs ih =>
    intro g tc
    cases g with
    | nil => simp [pass2, markCount]
    | cons gc gs =>
      by_cases hr : r = LetterResult.Absent
      · subst hr
        cases hfp : find_position (fun x => x == gc && !(x == nullChar)) tc with
        | some pos =>
          rw [show pass2 (gc :: gs) (LetterResult.Absent :: rs) tc =
              (LetterResult.Present :: (pass2 gs rs (tc.set pos nullChar)).1,
                (pass2 gs rs (tc.set pos nullChar)).2) by
            rw [pass2, if_pos rfl, hfp]]
          simp only [markCount]
          have hstep := count_set_of_find_position tc gc c pos hfp
          rw [if_neg (fun h => hc (Eq.symm h))] at hstep
          have hrec := ih gs (tc.set pos nullChar)
          by_cases hgc : gc = c
          · rw [if_pos hgc] at hstep
            rw [if_pos ⟨hgc, by decide⟩]
            rw [if_neg (fun hcon => hcon.2 rfl)]
            omega
          · rw [if_neg hgc] at hstep
            rw [if_neg (fun hcon => hgc hcon.1)]
            rw [if_neg (fun hcon => hcon.2 rfl)]
            omega
        | none =>
          rw [show pass2 (gc :: gs) (LetterResult.Absent :: rs) tc =
              (LetterResult.Absent :: (pass2 gs rs tc).1, (pass2 gs rs tc).2) by
            rw [pass2, if_pos rfl, hfp]]
          simp only [markCount]
          have hrec := ih gs tc
          rw [if_neg (fun hcon => hcon.2 rfl)]
          omega
      · rw [show pass2 (gc :: gs) (r :: rs) tc =
            (r :: (pass2 gs rs tc).1, (pass2 gs rs tc).2) by
          rw [pass2, if_neg hr]]
        simp only [markCount]
        have hrec := ih gs tc
        by_cases hcond : gc = c ∧ r ≠ LetterResult.Absent
        · rw [if_pos hcond]
          omega
        · rw [if_neg hcond]
          omega

/-- Helper: the second pass never changes the number of marks carried by the
tombstone letter, because its search predicate excludes the tombstone. -/
theorem pass2_null_marks :
    ∀ (res : List LetterResult) (g tc : List Char),
      markCount g (pass2 g res tc).1 nullChar = markCount g res nullChar := by
  intro res
  induction res with
  | nil =>
    intro g tc
    cases g <;> simp [pass2, markCount]
  | cons r rs ih =>
    intro g tc
    cases g with
    | nil => simp [pass2, markCount]
    | cons gc gs =>
      by_cases hr : r = LetterResult.Absent
      · subst hr
        cases hfp : find_position (fun x => x == gc && !(x == nullChar)) tc with
        | some pos =>
          rw [show pass2 (gc :: gs) (LetterResult.Absent :: rs) tc =
              (LetterResult.Present :: (pass2 gs rs (tc.set pos nullChar)).1,
                (pass2 gs rs (tc.set pos nullChar)).2) by
            rw [pass2, if_pos rfl, hfp]]
          have hgc : gc ≠ nullChar := by
            obtain ⟨x, _, hpx⟩ := find_position_some_mem _ tc pos hfp
            obtain ⟨hx1, hx2⟩ := Bool.and_eq_true_iff.mp hpx
            intro hcon
            rw [show x = gc by simpa using hx1, hcon] at hx2
            simp at hx2
          simp only [markCount]
          rw [if_neg (fun hcon => hgc hcon.1)]
          rw [if_neg (fun hcon => hgc hcon.1)]
          rw [ih gs (tc.set pos nullChar)]
        | none =>
          rw [show pass2 (gc :: gs) (LetterResult.Absent :: rs) tc =
              (LetterResult.Absent :: (pass2 gs rs tc).1, (pass2 gs rs tc).2) by
            rw [pass2, if_pos rfl, hfp]]
          simp only [markCount]
          rw [ih gs tc]
      · rw [show pass2 (gc :: gs) (r :: rs) tc =
            (r :: (pass2 gs rs tc).1, (pass2 gs rs tc).2) by
          rw [pass2, if_neg hr]]
        simp only [markCount]
        rw [ih gs tc]

/-- C3 (amended): whenever evaluate_guess returns a verdict array (both
inputs at least WORD_LENGTH characters, which five-letter inputs such as the
claimed SPEED versus ERASE example are not), every letter c is marked
Correct or Present at no more positions of the uppercased guess than c
occurs in the target: duplicate-letter safety. -/
theorem claim_C3_duplicate_safety (guess target : List Char) (res : List LetterResult)
    (h : evaluate_guess guess target = some res) (c : Char) :
    markCount (guess.map Char.toUpper) res c ≤ target.count c := by
  unfold evaluate_guess at h
  split at h
  · exact absurd h (by simp)
  · have hres : res = evaluate_guess_core guess target := by
      cases h
      rfl
    subst hres
    have hcore : evaluate_guess_core guess target =
        (pass2 (guess.map Char.toUpper)
          (pass1 WORD_LENGTH (guess.map Char.toUpper) target).1
          (pass1 WORD_LENGTH (guess.map Char.toUpper) target).2).1 := rfl
    rw [hcore]
    by_cases hcn : c = nullChar
    · subst hcn
      rw [pass2_null_marks]
      exact le_trans
        (pass1_null_marks WORD_LENGTH (guess.map Char.toUpper) target)
        (le_refl _)
    · have h2 := pass2_invariant c hcn (pass1 WORD_LENGTH (guess.map Char.toUpper) target).1
        (guess.map Char.toUpper) (pass1 WORD_LENGTH (guess.map Char.toUpper) target).2
      have h1 := pass1_invariant c hcn WORD_LENGTH (guess.map Char.toUpper) target
      omega

/-- C3 witness: duplicate-letter safety applied to the six-letter guess
ORANGE against target ANCHOR, at the repeated-in-guess letter A. -/
theorem claim_C3_witness :
    markCount (['O','R','A','N','G','E'].map Char.toUpper)
      [LetterResult.Present, LetterResult.Present, LetterResult.Present,
        LetterResult.Present, LetterResult.Absent, LetterResult.Absent] 'A'
      ≤ ['A','N','C','H','O','R'].count 'A' :=
  claim_C3_duplicate_safety ['O','R','A','N','G','E'] ['A','N','C','H','O','R'] _
    (by decide) 'A'

/-- C3 counterexample: the claimed example inputs SPEED and ERASE are
five-letter words, so the six-position evaluator produces no verdict array
at all for them (index panic in Rust); in particular it does not yield one
Correct and one Present for the two letters E. -/
theorem claim_C3_counterexample :
    evaluate_guess ['S','P','E','E','D'] ['E','R','A','S','E'] = none := by
  decide

/-- C10 counterexample: the same zero-score completed game run against a
board whose equal-score entries are out of time order does change the
leaderboard, because the sort loop runs even for score zero and reorders the
two entries: the claim that the leaderboards are left unchanged fails. -/
theorem claim_C10_counterexample :
    zeroScoreSession.completed = true ∧ zeroScoreSession.score = 0 ∧
    (update_player_stats 0 zeroScoreSession ctxC10).daily_leaderboard
      ≠ ctxC10.daily_leaderboard := by
  refine ⟨by decide, by decide, by decide⟩

/-- Helper: saturating addition never exceeds the u32 ceiling. -/
theorem satAdd_le (a b : Nat) : satAdd a b ≤ U32 - 1 := min_le_right _ _

/-- Helper: saturating addition of zero is the identity below the ceiling. -/
theorem satAdd_zero_of_le (a : Nat) (h : a ≤ U32 - 1) : satAdd a 0 = a := by
  have hU : U32 - 1 = 4294967295 := by norm_num [U32]
  have h2 : a ≤ 4294967295 := hU ▸ h
  show min (a + 0) (U32 - 1) = a
  rw [hU]
  omega

/-- Helper: saturating addition of a small value below the ceiling. -/
theorem satAdd_zero_left (b : Nat) (h : b < U32) : satAdd 0 b = b := by
  have hU : U32 = 4294967296 := by norm_num [U32]
  have h2 : b < 4294967296 := hU ▸ h
  show min (0 + b) (U32 - 1) = b
  rw [hU]
  omega

/-- Helper: the saturating score sum stays below the u32 ceiling. -/
theorem foldl_satAdd_le (l : List NewEntryData) :
    ∀ acc, acc ≤ U32 - 1 → l.foldl (fun a d => satAdd a d.score) acc ≤ U32 - 1 := by
  induction l with
  | nil => intro acc h; exact h
  | cons d rest ih => intro acc _; exact ih _ (satAdd_le _ _)

theorem satScoreSum_le (p : Nat) (subs : List NewEntryData) :
    satScoreSum p subs ≤ U32 - 1 :=
  foldl_satAdd_le _ 0 (Nat.zero_le _)

/-- Helper: one more submission changes only its own player saturating sum. -/
theorem satScoreSum_append (p : Nat) (subs : List NewEntryData) (d : NewEntryData) :
    satScoreSum p (subs ++ [d]) =
      if d.player = p then satAdd (satScoreSum p subs) d.score
      else satScoreSum p subs := by
  unfold satScoreSum
  rw [List.filter_append, List.foldl_append]
  by_cases h : d.player = p
  · rw [if_pos h]
    simp [h]
  · rw [if_neg h]
    simp [h]

theorem satScoreSum_nil (p : Nat) : satScoreSum p [] = 0 := rfl

/-- Helper: one more submission changes only its own player best score. -/
theorem bestScore_append (p : Nat) (subs : List NewEntryData) (d : NewEntryData) :
    bestScore p (subs ++ [d]) =
      if d.player = p then max (bestScore p subs) d.score
      else bestScore p subs := by
  unfold bestScore
  rw [List.filter_append, List.foldl_append]
  by_cases h : d.player = p
  · rw [if_pos h]
    simp [h]
  · rw [if_neg h]
    simp [h]

theorem bestScore_nil (p : Nat) : bestScore p [] = 0 := rfl

/-- Helper: a failed accumulate search means no entry of that player. -/
theorem update_entries_accumulate_none (es : List LeaderEntry) (d : NewEntryData)
    (h : update_entries_accumulate es d = none) :
    ∀ e ∈ es, e.player ≠ d.player := by
  induction es with
  | nil => intro e he; simp at he
  | cons e0 rest ih =>
    intro e he
    by_cases hp : e0.player = d.player
    · rw [update_entries_accumulate, if_pos hp] at h
      simp at h
    · rw [update_entries_accumulate, if_neg hp] at h
      rcases List.mem_cons.mp he with rfl | he2
      · exact hp
      · exact ih (by simpa using h) e he2

/-- Helper: a successful accumulate search splits the list at the first
entry of the player and replaces exactly that entry. -/
theorem update_entries_accumulate_some (es : List LeaderEntry) (d : NewEntryData)
    (es2 : List LeaderEntry) (h : update_entries_accumulate es d = some es2) :
    ∃ l1 e0 l2, es = l1 ++ e0 :: l2 ∧ e0.player = d.player ∧
      (∀ e ∈ l1, e.player ≠ d.player) ∧ es2 = l1 ++ accumulate_entry e0 d :: l2 := by
  induction es generalizing es2 with
  | nil => simp [update_entries_accumulate] at h
  | cons e0 rest ih =>
    by_cases hp : e0.player = d.player
    · rw [update_entries_accumulate, if_pos hp] at h
      refine ⟨[], e0, rest, by simp, hp, by simp, ?_⟩
      cases h
      simp
    · rw [update_entries_accumulate, if_neg hp] at h
      obtain ⟨es3, hes3, hcons⟩ := Option.map_eq_some'.mp h
      obtain ⟨l1, e1, l2, h1, h2, h3, h4⟩ := ih es3 hes3
      refine ⟨e0 :: l1, e1, l2, by simp [h1], h2, ?_, ?_⟩
      · intro x hx
        rcases List.mem_cons.mp hx with rfl | hx2
        · exact hp
        · exact h3 x hx2
      · rw [← hcons, h4]
        simp

/-- Helper: a failed daily search means no entry of that player. -/
theorem update_entries_daily_none (es : List LeaderEntry) (d : NewEntryData)
    (h : update_entries_daily es d = none) :
    ∀ e ∈ es, e.player ≠ d.player := by
  induction es with
  | nil => intro e he; simp at he
  | cons e0 rest ih =>
    intro e he
    by_cases hp : e0.player = d.player
    · rw [update_entries_daily, if_pos hp] at h
      simp at h
    · rw [update_entries_daily, if_neg hp] at h
      rcases List.mem_cons.mp he with rfl | he2
      · exact hp
      · exact ih (by simpa using h) e he2

/-- Helper: a successful daily search splits the list at the first entry of
the player and replaces it exactly when the new score is strictly better. -/
theorem update_entries_daily_some (es : List LeaderEntry) (d : NewEntryData)
    (es2 : List LeaderEntry) (h : update_entries_daily es d = some es2) :
    ∃ l1 e0 l2, es = l1 ++ e0 :: l2 ∧ e0.player = d.player ∧
      (∀ e ∈ l1, e.player ≠ d.player) ∧
      es2 = l1 ++ (if d.score > e0.score then mk_leader_entry d else e0) :: l2 := by
  induction es generalizing es2 with
  | nil => simp [update_entries_daily] at h
  | cons e0 rest ih =>
    by_cases hp : e0.player = d.player
    · rw [update_entries_daily, if_pos hp] at h
      refine ⟨[], e0, rest, by simp, hp, by simp, ?_⟩
      cases h
      simp
    · rw [update_entries_daily, if_neg hp] at h
      obtain ⟨es3, hes3, hcons⟩ := Option.map_eq_some'.mp h
      obtain ⟨l1, e1, l2, h1, h2, h3, h4⟩ := ih es3 hes3
      refine ⟨e0 :: l1, e1, l2, by simp [h1], h2, ?_, ?_⟩
      · intro x hx
        rcases List.mem_cons.mp hx with rfl | hx2
        · exact hp
        · exact h3 x hx2
      · rw [← hcons, h4]
        simp

/-- Helper: a list of distinct players drawn from a pool has at most as many
elements as the pool has distinct players. -/
theorem nodup_length_le_card (l : List Nat) (l2 : List Nat) (hn : l.Nodup)
    (hsub : ∀ x ∈ l, x ∈ l2) : l.length ≤ l2.toFinset.card := by
  rw [← List.toFinset_card_of_nodup hn]
  apply Finset.card_le_card
  intro x hx
  rw [List.mem_toFinset] at hx ⊢
  exact hsub x hx

/-- Helper: the distinct-player count is monotone in the submission list. -/
theorem players_card_mono (l1 l2 : List NewEntryData) (hsub : ∀ x ∈ l1, x ∈ l2) :
    (l1.map NewEntryData.player).toFinset.card
      ≤ (l2.map NewEntryData.player).toFinset.card := by
  apply Finset.card_le_card
  intro x hx
  rw [List.mem_toFinset] at hx ⊢
  obtain ⟨e, he, rfl⟩ := List.mem_map.mp hx
  exact List.mem_map.mpr ⟨e, hsub e he, rfl⟩

/-- Helper: a board whose players are distinct and drawn from a submission
pool has no more entries than the pool has distinct players. -/
theorem entries_length_le (es : List LeaderEntry) (pool : List Nat)
    (hnodup : (entry_players es).Nodup) (hmem : ∀ e ∈ es, e.player ∈ pool) :
    es.length ≤ pool.toFinset.card := by
  have h1 : es.length = (entry_players es).length := by simp [entry_players]
  rw [h1]
  apply nodup_length_le_card _ _ hnodup
  intro x hx
  unfold entry_players at hx
  obtain ⟨e, he, rfl⟩ := List.mem_map.mp hx
  exact hmem e he

/-- Helper: the sort-and-truncate loop preserves the accumulate invariant on
boards within the cap. -/
theorem acc_inv_sort (processed : List NewEntryData) (lb : PeriodLeaderboard)
    (hinv : acc_inv processed lb) (hlen : lb.entries.length ≤ 100) :
    acc_inv processed (sort_and_truncate lb) := by
  obtain ⟨hfin, hnodup, hmem, hscore, hex⟩ := hinv
  have hperm := sort_and_truncate_perm lb hlen
  refine ⟨hfin, ?_, ?_, ?_, ?_⟩
  · unfold entry_players at *
    exact ((hperm.map LeaderEntry.player).nodup_iff).mpr hnodup
  · intro e he
    exact hmem e (hperm.mem_iff.mp he)
  · intro e he
    exact hscore e (hperm.mem_iff.mp he)
  · intro p hp
    obtain ⟨e, he, hpe⟩ := hex p hp
    exact ⟨e, hperm.mem_iff.mpr he, hpe⟩

/-- Helper: the sort-and-truncate loop preserves the replace-if-better
invariant on boards within the cap. -/
theorem daily_inv_sort (processed : List NewEntryData) (lb : PeriodLeaderboard)
    (hinv : daily_inv processed lb) (hlen : lb.entries.length ≤ 100) :
    daily_inv processed (sort_and_truncate lb) := by
  obtain ⟨hfin, hnodup, hmem, hscore, hex⟩ := hinv
  have hperm := sort_and_truncate_perm lb hlen
  refine ⟨hfin, ?_, ?_, ?_, ?_⟩
  · unfold entry_players at *
    exact ((hperm.map LeaderEntry.player).nodup_iff).mpr hnodup
  · intro e he
    exact hmem e (hperm.mem_iff.mp he)
  · intro e he
    exact hscore e (hperm.mem_iff.mp he)
  · intro p hp
    obtain ⟨e, he, hpe⟩ := hex p hp
    exact ⟨e, hperm.mem_iff.mpr he, hpe⟩

/-- Helper: a player that no board entry carries has a zero accumulated
score in the invariant. -/
theorem acc_sum_zero_of_absent (processed : List NewEntryData) (lb : PeriodLeaderboard)
    (hex : ∀ p, satScoreSum p processed ≠ 0 → ∃ e ∈ lb.entries, e.player = p)
    (q : Nat) (habs : ∀ e ∈ lb.entries, e.player ≠ q) :
    satScoreSum q processed = 0 := by
  by_contra hcon
  obtain ⟨e, he, hpe⟩ := hex q hcon
  exact habs e he hpe

/-- Helper: one update_player_stats call preserves the accumulate invariant
on a weekly or monthly board. -/
theorem acc_step (processed : List NewEntryData) (lb : PeriodLeaderboard) (d : NewEntryData)
    (hinv : acc_inv processed lb) (hsc : d.score < U32)
    (hbound : ((processed ++ [d]).map NewEntryData.player).toFinset.card ≤ 100) :
    acc_inv (processed ++ [d]) (update_player_stats_accumulate lb d) := by
  obtain ⟨hfin, hnodup, hmem, hscore, hex⟩ := hinv
  have hmemx : ∀ e ∈ lb.entries, e.player ∈ (processed ++ [d]).map NewEntryData.player := by
    intro e he
    rw [List.map_append]
    exact List.mem_append_left _ (hmem e he)
  have hmain : acc_inv (processed ++ [d]) (accumulate_score lb d) ∧
      (accumulate_score lb d).entries.length ≤ 100 := by
    by_cases hz : d.score = 0
    · have hguard : accumulate_score lb d = lb := by
        unfold accumulate_score
        rw [if_pos (by simp [hfin, hz])]
      rw [hguard]
      refine ⟨⟨hfin, hnodup, hmemx, ?_, ?_⟩, ?_⟩
      · intro e he
        rw [satScoreSum_append]
        by_cases hp : d.player = e.player
        · rw [if_pos hp, hz, satAdd_zero_of_le _ (satScoreSum_le _ _)]
          exact hscore e he
        · rw [if_neg hp]
          exact hscore e he
      · intro p hp
        rw [satScoreSum_append] at hp
        by_cases hdp : d.player = p
        · rw [if_pos hdp, hz, satAdd_zero_of_le _ (satScoreSum_le _ _)] at hp
          exact hex p hp
        · rw [if_neg hdp] at hp
          exact hex p hp
      · exact le_trans (entries_length_le _ _ hnodup hmemx) hbound
    · cases hupd : update_entries_accumulate lb.entries d with
      | some es2 =>
        have hmid : accumulate_score lb d = { lb with entries := es2 } := by
          unfold accumulate_score
          rw [if_neg (by simp [hfin, hz]), hupd]
        obtain ⟨l1, e0, l2, heq, hpl, hfirst, hes2⟩ :=
          update_entries_accumulate_some _ _ _ hupd
        have hplayers : entry_players es2 = entry_players lb.entries := by
          rw [hes2, heq]
          simp [entry_players, accumulate_entry]
        have hnodup2 : (entry_players es2).Nodup := by
          rw [hplayers]
          exact hnodup
        have hl2 : ∀ e ∈ l2, e.player ≠ d.player := by
          intro e he hcon
          have hmid2 : (entry_players (l1 ++ e0 :: l2)).Nodup := heq ▸ hnodup
          have hmid3 : (List.map LeaderEntry.player l1
              ++ e0.player :: List.map LeaderEntry.player l2).Nodup := by
            simpa [entry_players] using hmid2
          have hnd := List.nodup_middle.mp hmid3
          have : e0.player ∈ List.map LeaderEntry.player l1
              ++ List.map LeaderEntry.player l2 := by
            apply List.mem_append_right
            exact List.mem_map.mpr ⟨e, he, by rw [hcon, hpl]⟩
          exact (List.nodup_cons.mp hnd).1 this
        have hmem2 : ∀ e ∈ es2, e.player ∈ (processed ++ [d]).map NewEntryData.player := by
          intro e he
          rw [hes2] at he
          rcases List.mem_append.mp he with h1 | h2
          · exact hmemx e (by rw [heq]; exact List.mem_append_left _ h1)
          · rcases List.mem_cons.mp h2 with rfl | h3
            · rw [List.map_append]
              apply List.mem_append_right
              simp [accumulate_entry, hpl]
            · exact hmemx e (by rw [heq]; exact List.mem_append_right _ (List.mem_cons_of_mem _ h3))
        rw [hmid]
        refine ⟨⟨hfin, hnodup2, hmem2, ?_, ?_⟩, ?_⟩
        · intro e he
          rw [hes2] at he
          rcases List.mem_append.mp he with h1 | h2
          · have hne : e.player ≠ d.player := hfirst e h1
            rw [satScoreSum_append, if_neg (fun hcc => hne hcc.symm)]
            exact hscore e (by rw [heq]; exact List.mem_append_left _ h1)
          · rcases List.mem_cons.mp h2 with rfl | h3
            · have he0 : e0 ∈ lb.entries := by
                rw [heq]
                exact List.mem_append_right _ (List.mem_cons_self _ _)
              have : (accumulate_entry e0 d).player = e0.player := rfl
              rw [this, satScoreSum_append, if_pos hpl.symm, ← hscore e0 he0]
              rfl
            · have hne : e.player ≠ d.player := hl2 e h3
              rw [satScoreSum_append, if_neg (fun hcc => hne hcc.symm)]
              exact hscore e (by rw [heq]; exact List.mem_append_right _ (List.mem_cons_of_mem _ h3))
        · intro p hp
          by_cases hdp : d.player = p
          · refine ⟨accumulate_entry e0 d, ?_, by rw [show (accumulate_entry e0 d).player
              = e0.player from rfl, hpl, hdp]⟩
            rw [hes2]
            exact List.mem_append_right _ (List.mem_cons_self _ _)
          · rw [satScoreSum_append, if_neg hdp] at hp
            obtain ⟨e, he, hpe⟩ := hex p hp
            rw [heq] at he
            rcases List.mem_append.mp he with h1 | h2
            · exact ⟨e, by rw [hes2]; exact List.mem_append_left _ h1, hpe⟩
            · rcases List.mem_cons.mp h2 with rfl | h3
              · exact absurd (hpl ▸ hpe) hdp
              · exact ⟨e, by rw [hes2]; exact List.mem_append_right _ (List.mem_cons_of_mem _ h3), hpe⟩
        · exact le_trans (entries_length_le _ _ hnodup2 hmem2) hbound
      | none =>
        have hnone := update_entries_accumulate_none _ _ hupd
        have hmid : accumulate_score lb d =
            { lb with
              entries := lb.entries ++ [mk_leader_entry d]
              total_players := (lb.total_players + 1) % U32 } := by
          unfold accumulate_score
          rw [if_neg (by simp [hfin, hz]), hupd]
        have hnotin : d.player ∉ entry_players lb.entries := by
          intro hcon
          obtain ⟨e, he, hpe⟩ := List.mem_map.mp (by simpa [entry_players] using hcon)
          exact hnone e he hpe
        have hnodup2 : (entry_players (lb.entries ++ [mk_leader_entry d])).Nodup := by
          unfold entry_players at *
          rw [List.map_append]
          refine List.Nodup.append hnodup (List.nodup_singleton _) ?_
          intro x hx hx2
          have : x = d.player := by simpa [mk_leader_entry] using hx2
          exact hnotin (this ▸ hx)
        have hmem2 : ∀ e ∈ lb.entries ++ [mk_leader_entry d],
            e.player ∈ (processed ++ [d]).map NewEntryData.player := by
          intro e he
          rcases List.mem_append.mp he with h1 | h2
          · exact hmemx e h1
          · rw [List.map_append]
            apply List.mem_append_right
            have : e = mk_leader_entry d := by simpa using h2
            simp [this, mk_leader_entry]
        have hzero : satScoreSum d.player processed = 0 :=
          acc_sum_zero_of_absent processed lb hex d.player hnone
        rw [hmid]
        refine ⟨⟨hfin, hnodup2, hmem2, ?_, ?_⟩, ?_⟩
        · intro e he
          rcases List.mem_append.mp he with h1 | h2
          · have hne : e.player ≠ d.player := hnone e h1
            rw [satScoreSum_append, if_neg (fun hcc => hne hcc.symm)]
            exact hscore e h1
          · have he2 : e = mk_leader_entry d := by simpa using h2
            subst he2
            rw [show (mk_leader_entry d).player = d.player from rfl]
            rw [satScoreSum_append, if_pos rfl, hzero, satAdd_zero_left _ hsc]
            rfl
        · intro p hp
          by_cases hdp : d.player = p
          · exact ⟨mk_leader_entry d,
              List.mem_append_right _ (List.mem_cons_self _ _),
              by rw [show (mk_leader_entry d).player = d.player from rfl, hdp]⟩
          · rw [satScoreSum_append, if_neg hdp] at hp
            obtain ⟨e, he, hpe⟩ := hex p hp
            exact ⟨e, List.mem_append_left _ he, hpe⟩
        · exact le_trans (entries_length_le _ _ hnodup2 hmem2) hbound
  exact acc_inv_sort _ _ hmain.1 hmain.2

/-- Helper: a player that no board entry carries has a zero best score in
the replace-if-better invariant. -/
theorem daily_best_zero_of_absent (processed : List NewEntryData) (lb : PeriodLeaderboard)
    (hex : ∀ p, bestScore p processed ≠ 0 → ∃ e ∈ lb.entries, e.player = p)
    (q : Nat) (habs : ∀ e ∈ lb.entries, e.player ≠ q) :
    bestScore q processed = 0 := by
  by_contra hcon
  obtain ⟨e, he, hpe⟩ := hex q hcon
  exact habs e he hpe

/-- Helper: one update_player_stats call preserves the replace-if-better
invariant on the daily board. -/
theorem daily_step (processed : List NewEntryData) (lb : PeriodLeaderboard) (d : NewEntryData)
    (hinv : daily_inv processed lb)
    (hbound : ((processed ++ [d]).map NewEntryData.player).toFinset.card ≤ 100) :
    daily_inv (processed ++ [d]) (update_player_stats_daily lb d) := by
  obtain ⟨hfin, hnodup, hmem, hscore, hex⟩ := hinv
  have hmemx : ∀ e ∈ lb.entries, e.player ∈ (processed ++ [d]).map NewEntryData.player := by
    intro e he
    rw [List.map_append]
    exact List.mem_append_left _ (hmem e he)
  have hmain : daily_inv (processed ++ [d]) (update_daily lb d) ∧
      (update_daily lb d).entries.length ≤ 100 := by
    by_cases hz : d.score = 0
    · have hguard : update_daily lb d = lb := by
        unfold update_daily
        rw [if_pos (by simp [hfin, hz])]
      rw [hguard]
      refine ⟨⟨hfin, hnodup, hmemx, ?_, ?_⟩, ?_⟩
      · intro e he
        rw [bestScore_append]
        by_cases hp : d.player = e.player
        · rw [if_pos hp, hz]
          rw [show max (bestScore e.player processed) 0 = bestScore e.player processed
            by omega]
          exact hscore e he
        · rw [if_neg hp]
          exact hscore e he
      · intro p hp
        rw [bestScore_append] at hp
        by_cases hdp : d.player = p
        · rw [if_pos hdp, hz] at hp
          rw [show max (bestScore p processed) 0 = bestScore p processed by omega] at hp
          exact hex p hp
        · rw [if_neg hdp] at hp
          exact hex p hp
      · exact le_trans (entries_length_le _ _ hnodup hmemx) hbound
    · cases hupd : update_entries_daily lb.entries d with
      | some es2 =>
        have hmid : update_daily lb d = { lb with entries := es2 } := by
          unfold update_daily
          rw [if_neg (by simp [hfin, hz]), hupd]
        obtain ⟨l1, e0, l2, heq, hpl, hfirst, hes2⟩ :=
          update_entries_daily_some _ _ _ hupd
        have hrp : (if d.score > e0.score then mk_leader_entry d else e0).player
            = e0.player := by
          by_cases hb : d.score > e0.score
          · rw [if_pos hb]
            show d.player = e0.player
            exact hpl.symm
          · rw [if_neg hb]
        have hrs : (if d.score > e0.score then mk_leader_entry d else e0).score
            = max e0.score d.score := by
          by_cases hb : d.score > e0.score
          · rw [if_pos hb]
            show d.score = max e0.score d.score
            omega
          · rw [if_neg hb]
            omega
        have hplayers : entry_players es2 = entry_players lb.entries := by
          rw [hes2, heq]
          simp [entry_players, hrp]
        have hnodup2 : (entry_players es2).Nodup := by
          rw [hplayers]
          exact hnodup
        have hl2 : ∀ e ∈ l2, e.player ≠ d.player := by
          intro e he hcon
          have hmid2 : (entry_players (l1 ++ e0 :: l2)).Nodup := heq ▸ hnodup
          have hmid3 : (List.map LeaderEntry.player l1
              ++ e0.player :: List.map LeaderEntry.player l2).Nodup := by
            simpa [entry_players] using hmid2
          have hnd := List.nodup_middle.mp hmid3
          have : e0.player ∈ List.map LeaderEntry.player l1
              ++ List.map LeaderEntry.player l2 := by
            apply List.mem_append_right
            exact List.mem_map.mpr ⟨e, he, by rw [hcon, hpl]⟩
          exact (List.nodup_cons.mp hnd).1 this
        have hmem2 : ∀ e ∈ es2, e.player ∈ (processed ++ [d]).map NewEntryData.player := by
          intro e he
          rw [hes2] at he
          rcases List.mem_append.mp he with h1 | h2
          · exact hmemx e (by rw [heq]; exact List.mem_append_left _ h1)
          · rcases List.mem_cons.mp h2 with rfl | h3
            · rw [List.map_append]
              apply List.mem_append_right
              simp [hrp, hpl]
            · exact hmemx e (by rw [heq]; exact List.mem_append_right _ (List.mem_cons_of_mem _ h3))
        rw [hmid]
        refine ⟨⟨hfin, hnodup2, hmem2, ?_, ?_⟩, ?_⟩
        · intro e he
          rw [hes2] at he
          rcases List.mem_append.mp he with h1 | h2
          · have hne : e.player ≠ d.player := hfirst e h1
            rw [bestScore_append, if_neg (fun hcc => hne hcc.symm)]
            exact hscore e (by rw [heq]; exact List.mem_append_left _ h1)
          · rcases List.mem_cons.mp h2 with rfl | h3
            · have he0 : e0 ∈ lb.entries := by
                rw [heq]
                exact List.mem_append_right _ (List.mem_cons_self _ _)
              rw [hrp, hrs, bestScore_append, if_pos hpl.symm, ← hscore e0 he0]
            · have hne : e.player ≠ d.player := hl2 e h3
              rw [bestScore_append, if_neg (fun hcc => hne hcc.symm)]
              exact hscore e (by rw [heq]; exact List.mem_append_right _ (List.mem_cons_of_mem _ h3))
        · intro p hp
          by_cases hdp : d.player = p
          · refine ⟨(if d.score > e0.score then mk_leader_entry d else e0), ?_,
              by rw [hrp, hpl, hdp]⟩
            rw [hes2]
            exact List.mem_append_right _ (List.mem_cons_self _ _)
          · rw [bestScore_append, if_neg hdp] at hp
            obtain ⟨e, he, hpe⟩ := hex p hp
            rw [heq] at he
            rcases List.mem_append.mp he with h1 | h2
            · exact ⟨e, by rw [hes2]; exact List.mem_append_left _ h1, hpe⟩
            · rcases List.mem_cons.mp h2 with rfl | h3
              · exact absurd (hpl ▸ hpe) hdp
              · exact ⟨e, by rw [hes2]; exact List.mem_append_right _ (List.mem_cons_of_mem _ h3), hpe⟩
        · exact le_trans (entries_length_le _ _ hnodup2 hmem2) hbound
      | none =>
        have hnone := update_entries_daily_none _ _ hupd
        have hmid : update_daily lb d =
            { lb with
              entries := lb.entries ++ [mk_leader_entry d]
              total_players := (lb.total_players + 1) % U32 } := by
          unfold update_daily
          rw [if_neg (by simp [hfin, hz]), hupd]
        have hnotin : d.player ∉ entry_players lb.entries := by
          intro hcon
          obtain ⟨e, he, hpe⟩ := List.mem_map.mp (by simpa [entry_players] using hcon)
          exact hnone e he hpe
        have hnodup2 : (entry_players (lb.entries ++ [mk_leader_entry d])).Nodup := by
          unfold entry_players at *
          rw [List.map_append]
          refine List.Nodup.append hnodup (List.nodup_singleton _) ?_
          intro x hx hx2
          have : x = d.player := by simpa [mk_leader_entry] using hx2
          exact hnotin (this ▸ hx)
        have hmem2 : ∀ e ∈ lb.entries ++ [mk_leader_entry d],
            e.player ∈ (processed ++ [d]).map NewEntryData.player := by
          intro e he
          rcases List.mem_append.mp he with h1 | h2
          · exact hmemx e h1
          · rw [List.map_append]
            apply List.mem_append_right
            have : e = mk_leader_entry d := by simpa using h2
            simp [this, mk_leader_entry]
        have hzero : bestScore d.player processed = 0 :=
          daily_best_zero_of_absent processed lb hex d.player hnone
        rw [hmid]
        refine ⟨⟨hfin, hnodup2, hmem2, ?_, ?_⟩, ?_⟩
        · intro e he
          rcases List.mem_append.mp he with h1 | h2
          · have hne : e.player ≠ d.player := hnone e h1
            rw [bestScore_append, if_neg (fun hcc => hne hcc.symm)]
            exact hscore e h1
          · have he2 : e = mk_leader_entry d := by simpa using h2
            subst he2
            rw [show (mk_leader_entry d).player = d.player from rfl]
            rw [bestScore_append, if_pos rfl, hzero]
            show (mk_leader_entry d).score = max 0 d.score
            rw [show (mk_leader_entry d).score = d.score from rfl]
            omega
        · intro p hp
          by_cases hdp : d.player = p
          · exact ⟨mk_leader_entry d,
              List.mem_append_right _ (List.mem_cons_self _ _),
              by rw [show (mk_leader_entry d).player = d.player from rfl, hdp]⟩
          · rw [bestScore_append, if_neg hdp] at hp
            obtain ⟨e, he, hpe⟩ := hex p hp
            exact ⟨e, List.mem_append_left _ he, hpe⟩
        · exact le_trans (entries_length_le _ _ hnodup2 hmem2) hbound
  exact daily_inv_sort _ _ hmain.1 hmain.2

/-- Helper: the accumulate invariant carries over any run of updates. -/
theorem acc_run (subs : List NewEntryData) :
    ∀ (processed : List NewEntryData) (lb : PeriodLeaderboard),
      acc_inv processed lb →
      (∀ d ∈ subs, d.score < U32) →
      (((processed ++ subs).map NewEntryData.player).toFinset.card ≤ 100) →
      acc_inv (processed ++ subs) (run_accumulate lb subs) := by
  induction subs with
  | nil =>
    intro processed lb hinv _ _
    simpa [run_accumulate] using hinv
  | cons d rest ih =>
    intro processed lb hinv hsc hbound
    have hb1 : ((processed ++ [d]).map NewEntryData.player).toFinset.card ≤ 100 := by
      refine le_trans (players_card_mono _ (processed ++ d :: rest) ?_) hbound
      intro x hx
      rcases List.mem_append.mp hx with h1 | h2
      · exact List.mem_append_left _ h1
      · have : x = d := by simpa using h2
        exact List.mem_append_right _ (this ▸ List.mem_cons_self _ _)
    have hstep := acc_step processed lb d hinv (hsc d (List.mem_cons_self _ _)) hb1
    have hrest := ih (processed ++ [d]) (update_player_stats_accumulate lb d) hstep
      (fun d2 hd2 => hsc d2 (List.mem_cons_of_mem _ hd2))
      (by rw [List.append_assoc]; simpa using hbound)
    rw [show (processed ++ [d]) ++ rest = processed ++ d :: rest by simp] at hrest
    simpa [run_accumulate] using hrest

/-- Helper: the replace-if-better invariant carries over any run of
updates. -/
theorem daily_run (subs : List NewEntryData) :
    ∀ (processed : List NewEntryData) (lb : PeriodLeaderboard),
      daily_inv processed lb →
      (((processed ++ subs).map NewEntryData.player).toFinset.card ≤ 100) →
      daily_inv (processed ++ subs) (run_daily lb subs) := by
  induction subs with
  | nil =>
    intro processed lb hinv _
    simpa [run_daily] using hinv
  | cons d rest ih =>
    intro processed lb hinv hbound
    have hb1 : ((processed ++ [d]).map NewEntryData.player).toFinset.card ≤ 100 := by
      refine le_trans (players_card_mono _ (processed ++ d :: rest) ?_) hbound
      intro x hx
      rcases List.mem_append.mp hx with h1 | h2
      · exact List.mem_append_left _ h1
      · have : x = d := by simpa using h2
        exact List.mem_append_right _ (this ▸ List.mem_cons_self _ _)
    have hstep := daily_step processed lb d hinv hb1
    have hrest := ih (processed ++ [d]) (update_player_stats_daily lb d) hstep
      (by rw [List.append_assoc]; simpa using hbound)
    rw [show (processed ++ [d]) ++ rest = processed ++ d :: rest by simp] at hrest
    simpa [run_daily] using hrest

/-- C6 (amended): starting from a freshly initialized board, as long as at
most 100 distinct players submit within the period (so that the 100-entry
truncation never evicts anyone), the replace-if-better daily board records
for each player exactly the maximum of the submitted scores (overwriting
only on a strictly greater score, so the recorded score never decreases),
and the accumulate weekly or monthly board records exactly the saturating
sum of all submitted scores.  If more than 100 players compete, truncation
can evict a player and the accumulated history is lost. -/
theorem claim_C6_update_policies (subs : List NewEntryData) (lb0 : PeriodLeaderboard)
    (p : Nat) (hempty : lb0.entries = []) (hfin : lb0.finalized = false)
    (hsc : ∀ d ∈ subs, d.score < U32)
    (hbound : (subs.map NewEntryData.player).toFinset.card ≤ 100) :
    (∀ e ∈ (run_accumulate lb0 subs).entries, e.player = p →
      e.score = satScoreSum p subs) ∧
    (satScoreSum p subs ≠ 0 → ∃ e ∈ (run_accumulate lb0 subs).entries, e.player = p) ∧
    (∀ e ∈ (run_daily lb0 subs).entries, e.player = p → e.score = bestScore p subs) ∧
    (bestScore p subs ≠ 0 → ∃ e ∈ (run_daily lb0 subs).entries, e.player = p) := by
  have hinv0acc : acc_inv [] lb0 := by
    refine ⟨hfin, by rw [hempty]; exact List.nodup_nil, ?_, ?_, ?_⟩
    · intro e he
      rw [hempty] at he
      simp at he
    · intro e he
      rw [hempty] at he
      simp at he
    · intro q hq
      exact absurd (satScoreSum_nil q) hq
  have hinv0d : daily_inv [] lb0 := by
    refine ⟨hfin, by rw [hempty]; exact List.nodup_nil, ?_, ?_, ?_⟩
    · intro e he
      rw [hempty] at he
      simp at he
    · intro e he
      rw [hempty] at he
      simp at he
    · intro q hq
      exact absurd (bestScore_nil q) hq
  have hacc := acc_run subs [] lb0 hinv0acc hsc (by simpa using hbound)
  have hd := daily_run subs [] lb0 hinv0d (by simpa using hbound)
  rw [List.nil_append] at hacc hd
  obtain ⟨_, _, _, hscoreA, hexA⟩ := hacc
  obtain ⟨_, _, _, hscoreD, hexD⟩ := hd
  refine ⟨?_, hexA p, ?_, hexD p⟩
  · intro e he hep
    exact hep ▸ hscoreA e he
  · intro e he hep
    exact hep ▸ hscoreD e he

/-- C6 witness: two submissions of 5 and 7 by one player on an accumulate
board leave that player one entry carrying their saturating sum 12. -/
theorem claim_C6_witness :
    entryC6w.score = satScoreSum 1 subsC6w :=
  (claim_C6_update_policies subsC6w (init_leaderboard "W1" PeriodType.Weekly 0) 1
    rfl rfl (by decide) (by decide)).1 entryC6w (by decide) (by decide)

set_option maxRecDepth 100000

/-- C6 counterexample: player 0 accumulates 10, is truncated off when one
hundred higher-scoring players fill the board, and then submits 3000: the
final recorded score is 3000 while the saturating sum of the submitted
scores is 3010, so the accumulate board does not record the sum of all
submitted scores for the period. -/
theorem claim_C6_counterexample :
    ((run_accumulate (init_leaderboard "W1" PeriodType.Weekly 0) subsC6).entries.filter
      (fun e => e.player == 0)).map LeaderEntry.score = [3000] ∧
    satScoreSum 0 subsC6 = 3010 := by
  constructor
  · decide
  · decide

end Voble
